import Mathlib

/-!
Verification development for the gqlc GraphQL compiler.

The Go sources are shallowly embedded as Lean definitions:

* `tokenizer/tokenizer.go` — the lexer (`Tokenize`, `readString`,
  `readTripleQuotedString`, `readComment`, `readIdentifier`, `readNumber`);
* `parser/parser.go` — the AST data model, the recursive-descent parser and
  the pretty-printing (`FormattedString`) functions;
* `schema/schema.go` — the schema graph data model and `buildSchemaFromAST`;
* the generator (`TypeScriptGenerator.Generate`, `collectVariableSchemas`,
  `addTypeWithDependencies`, `typeRefToSchemaExprInternal`, `sortedKeys`).

Go maps are modelled as association lists, channels as lists, panics as
`Except String`, and unbounded loops are given explicit fuel; every theorem
that relies on fuel shows the chosen fuel suffices.  `unicode.IsLetter`,
`unicode.IsDigit` and `unicode.IsSpace` are modelled on the ASCII range,
which is the range exercised by every statement below.
-/

namespace Gqlc

/-- Token kinds (tokenizer.go `TokenType`).  The first constructor `ILLEGAL`
mirrors the Go zero value of the type. -/
inductive TokenType where
  | ILLEGAL | EOF | IDENT | INT | FLOAT | STRING
  | QUERY | MUTATION | SUBSCRIPTION | FRAGMENT | ON | TYPE | SCHEMA | SCALAR
  | ENUM | INTERFACE | UNION | INPUT | EXTEND | DIRECTIVE | IMPLEMENTS
  | LBRACE | RBRACE | LBRACKET | RBRACKET | LPAREN | RPAREN
  | COLON | COMMA | EQUALS | AT | DOLLAR | BANG | PIPE | AMP | SPREAD
  | COMMENT
deriving DecidableEq, Repr

/-- A lexical token (tokenizer.go `Token`). -/
structure Token where
  type : TokenType
  literal : String
  line : Nat
  col : Nat
deriving DecidableEq, Repr

/-- Keyword table (tokenizer.go `keywords` and `lookupIdent`). -/
def lookupIdent (s : String) : TokenType :=
  if s = "query" then .QUERY
  else if s = "mutation" then .MUTATION
  else if s = "subscription" then .SUBSCRIPTION
  else if s = "fragment" then .FRAGMENT
  else if s = "on" then .ON
  else if s = "type" then .TYPE
  else if s = "schema" then .SCHEMA
  else if s = "scalar" then .SCALAR
  else if s = "enum" then .ENUM
  else if s = "interface" then .INTERFACE
  else if s = "union" then .UNION
  else if s = "input" then .INPUT
  else if s = "extend" then .EXTEND
  else if s = "directive" then .DIRECTIVE
  else if s = "implements" then .IMPLEMENTS
  else .IDENT

/-- tokenizer.go `isLetter`; `unicode.IsLetter` modelled on the ASCII range. -/
def isLetter (c : Char) : Bool := c.isAlpha || c = '_'

/-- tokenizer.go `isDigit`; `unicode.IsDigit` modelled on the ASCII range. -/
def isDigit (c : Char) : Bool := c.isDigit

/-- tokenizer.go `isAlphaNumeric`. -/
def isAlphaNumeric (c : Char) : Bool := isLetter c || isDigit c

/-- `unicode.IsSpace` modelled on the ASCII whitespace characters. -/
def isSpace (c : Char) : Bool := c = ' ' || c = '\t' || c = '\n' || c = '\r'

/-- Result of one lexer step: the produced token, the unconsumed input,
and the updated line/column counters.  In the Go source the counters and
the position are mutable locals of `Tokenize`; here they are threaded
explicitly and the position is represented by the unconsumed suffix. -/
structure LexStep where
  tok : Token
  rest : List Char
  line : Nat
  col : Nat
deriving Repr

/-- The `skipWhitespace` closure inside `Tokenize`: drop leading whitespace,
a newline increments `line` and resets `col` to 1. -/
def skipWhitespace : List Char → Nat → Nat → List Char × Nat × Nat
  | [], line, col => ([], line, col)
  | c :: rest, line, col =>
    if isSpace c then
      if c = '\n' then skipWhitespace rest (line + 1) 1
      else skipWhitespace rest line (col + 1)
    else (c :: rest, line, col)

/-- A `for pos < len && p(input[pos])` consumption loop, as used by
`readIdentifier`, `readComment` and the digit runs of `readNumber`:
returns the consumed prefix, the remaining suffix and the updated column. -/
def scanWhile (p : Char → Bool) : List Char → Nat → List Char × List Char × Nat
  | [], col => ([], [], col)
  | c :: rest, col =>
    if p c then
      let r := scanWhile p rest (col + 1)
      (c :: r.1, r.2.1, r.2.2)
    else ([], c :: rest, col)

/-- tokenizer.go `readIdentifier`: consume an alphanumeric run starting at a
letter and classify it through the keyword table. -/
def readIdentifier (l : List Char) (line col : Nat) : LexStep :=
  let r := scanWhile isAlphaNumeric l col
  { tok := { type := lookupIdent (String.mk r.1), literal := String.mk r.1,
             line := line, col := col },
    rest := r.2.1, line := line, col := r.2.2 }

/-- The digit-run-plus-fraction part of tokenizer.go `readNumber`, after
the optional minus sign `pre` has been consumed: a digit run, then a
fractional part only when a dot is directly followed by another digit. -/
def readNumberTail (pre : List Char) (l : List Char) (line col scol : Nat) : LexStep :=
  let d1 := scanWhile isDigit l scol
  match d1.2.1 with
  | '.' :: c2 :: rest2 =>
    if isDigit c2 then
      let d2 := scanWhile isDigit (c2 :: rest2) (d1.2.2 + 1)
      { tok := { type := .FLOAT,
                 literal := String.mk (pre ++ d1.1 ++ '.' :: d2.1),
                 line := line, col := col },
        rest := d2.2.1, line := line, col := d2.2.2 }
    else
      { tok := { type := .INT, literal := String.mk (pre ++ d1.1),
                 line := line, col := col },
        rest := d1.2.1, line := line, col := d1.2.2 }
  | _ =>
    { tok := { type := .INT, literal := String.mk (pre ++ d1.1),
               line := line, col := col },
      rest := d1.2.1, line := line, col := d1.2.2 }

/-- tokenizer.go `readNumber`: optional minus sign, then `readNumberTail`. -/
def readNumber (l : List Char) (line col : Nat) : LexStep :=
  match l with
  | '-' :: rest => readNumberTail ['-'] rest line col (col + 1)
  | _ => readNumberTail [] l line col col

/-- tokenizer.go `readComment`: consume from `#` up to (not including) the
next newline. -/
def readComment (l : List Char) (line col : Nat) : LexStep :=
  let r := scanWhile (fun c => !(c = '\n')) l col
  { tok := { type := .COMMENT, literal := String.mk r.1, line := line, col := col },
    rest := r.2.1, line := line, col := r.2.2 }

/-- Scan loop of tokenizer.go `readString` (the part after the opening
quote): stop before an unescaped closing quote (`found := true`), consume a
backslash together with the following character as a two-column escape —
without inspecting it for newlines — and track line/column for a raw
newline.  Returns the consumed characters, the remaining input (beginning
with the closing quote when found), the counters, and the found flag. -/
def readStringBody : List Char → Nat → Nat → List Char × List Char × Nat × Nat × Bool
  | [], line, col => ([], [], line, col, false)
  | c :: rest, line, col =>
    if c = '"' then ([], c :: rest, line, col, true)
    else if c = '\\' then
      match rest with
      | d :: rest2 =>
        let r := readStringBody rest2 line (col + 2)
        (c :: d :: r.1, r.2.1, r.2.2.1, r.2.2.2.1, r.2.2.2.2)
      | [] =>
        -- `pos+1 < len` fails: the backslash is consumed as an ordinary
        -- character and the loop then stops at end of input.
        ([c], [], line, col + 1, false)
    else if c = '\n' then
      let r := readStringBody rest (line + 1) 1
      (c :: r.1, r.2.1, r.2.2.1, r.2.2.2.1, r.2.2.2.2)
    else
      let r := readStringBody rest line (col + 1)
      (c :: r.1, r.2.1, r.2.2.1, r.2.2.2.1, r.2.2.2.2)
termination_by structural l => l

/-- tokenizer.go `readString`: `l` starts at the opening quote.  On a found
closing quote the literal includes both delimiters; otherwise the token is
`ILLEGAL` and its literal is the whole remaining input `input[start:]`. -/
def readString (l : List Char) (line col : Nat) : LexStep :=
  match l with
  | '"' :: tail =>
    let r := readStringBody tail line (col + 1)
    if r.2.2.2.2 then
      match r.2.1 with
      | '"' :: rem2 =>
        { tok := { type := .STRING, literal := String.mk ('"' :: r.1 ++ ['"']),
                   line := line, col := col },
          rest := rem2, line := r.2.2.1, col := r.2.2.2.1 + 1 }
      | rem =>
        -- unreachable: the found flag implies the rest starts with a quote
        { tok := { type := .ILLEGAL, literal := String.mk l, line := line, col := col },
          rest := rem, line := r.2.2.1, col := r.2.2.2.1 }
    else
      { tok := { type := .ILLEGAL, literal := String.mk l, line := line, col := col },
        rest := r.2.1, line := r.2.2.1, col := r.2.2.2.1 }
  | _ =>
    { tok := { type := .ILLEGAL, literal := String.mk l, line := line, col := col },
      rest := [], line := line, col := col }

/-- Scan loop of tokenizer.go `readTripleQuotedString`: runs only while at
least three characters remain (`pos+2 < len`); on three consecutive quotes
they are consumed and the flag is set; otherwise one character is consumed
with line/column tracking.  When fewer than three characters remain the
loop stops and the (at most two) leftover characters stay unconsumed. -/
def readTripleBody : List Char → Nat → Nat → List Char × List Char × Nat × Nat × Bool
  | a :: b :: c :: rest, line, col =>
    if a = '"' ∧ b = '"' ∧ c = '"' then
      ([a, b, c], rest, line, col + 3, true)
    else if a = '\n' then
      let r := readTripleBody (b :: c :: rest) (line + 1) 1
      (a :: r.1, r.2.1, r.2.2.1, r.2.2.2.1, r.2.2.2.2)
    else
      let r := readTripleBody (b :: c :: rest) line (col + 1)
      (a :: r.1, r.2.1, r.2.2.1, r.2.2.2.1, r.2.2.2.2)
  | l, line, col => ([], l, line, col, false)
termination_by structural l => l

/-- tokenizer.go `readTripleQuotedString`: `l` starts at the three opening
quotes.  On success the literal includes both delimiters; on a missing
closing delimiter the token is `ILLEGAL` and its literal is the whole
remaining input `input[start:]` — while the scan position stays where the
loop stopped, so up to two leftover characters are tokenized again. -/
def readTripleQuotedString (l : List Char) (line col : Nat) : LexStep :=
  match l with
  | q1 :: q2 :: q3 :: tail =>
    let r := readTripleBody tail line (col + 3)
    if r.2.2.2.2 then
      { tok := { type := .STRING, literal := String.mk (q1 :: q2 :: q3 :: r.1),
                 line := line, col := col },
        rest := r.2.1, line := r.2.2.1, col := r.2.2.2.1 }
    else
      { tok := { type := .ILLEGAL, literal := String.mk l, line := line, col := col },
        rest := r.2.1, line := r.2.2.1, col := r.2.2.2.1 }
  | _ =>
    { tok := { type := .ILLEGAL, literal := String.mk l, line := line, col := col },
      rest := [], line := line, col := col }

/-- Single-character punctuation step of the `switch` in `nextToken`. -/
def punctTok (t : TokenType) (lit : String) (rest : List Char) (line col : Nat) : LexStep :=
  { tok := { type := t, literal := lit, line := line, col := col },
    rest := rest, line := line, col := col + 1 }

/-- The character `switch` of `nextToken` in tokenizer.go, dispatching on
the current (non-whitespace) character `c` with remaining input `rest`. -/
def scanToken (c : Char) (rest : List Char) (line col : Nat) : LexStep :=
  match c with
  | '{' => punctTok .LBRACE ("\x7b") rest line col
  | '}' => punctTok .RBRACE ("\x7d") rest line col
  | '[' => punctTok .LBRACKET ("[") rest line col
  | ']' => punctTok .RBRACKET ("]") rest line col
  | '(' => punctTok .LPAREN ("(") rest line col
  | ')' => punctTok .RPAREN (")") rest line col
  | ':' => punctTok .COLON (":") rest line col
  | ',' => punctTok .COMMA (",") rest line col
  | '=' => punctTok .EQUALS ("=") rest line col
  | '@' => punctTok .AT ("@") rest line col
  | '$' => punctTok .DOLLAR ("$") rest line col
  | '!' => punctTok .BANG ("!") rest line col
  | '|' => punctTok .PIPE ("|") rest line col
  | '&' => punctTok .AMP ("&") rest line col
  | '.' =>
    match rest with
    | '.' :: '.' :: r3 =>
      { tok := { type := .SPREAD, literal := "...", line := line, col := col },
        rest := r3, line := line, col := col + 3 }
    | _ => punctTok .ILLEGAL (".") rest line col
  | '#' => readComment ('#' :: rest) line col
  | '"' =>
    match rest with
    | '"' :: '"' :: _ => readTripleQuotedString ('"' :: rest) line col
    | _ => readString ('"' :: rest) line col
  | c =>
    if isLetter c then readIdentifier (c :: rest) line col
    else if isDigit c || (c = '-' && (match rest with
                                      | d :: _ => isDigit d
                                      | [] => false)) then
      readNumber (c :: rest) line col
    else
      { tok := { type := .ILLEGAL, literal := String.mk [c], line := line, col := col },
        rest := rest, line := line, col := col + 1 }

/-- The `nextToken` closure inside tokenizer.go `Tokenize`: skip whitespace,
emit `EOF` at end of input, otherwise dispatch through the `switch`. -/
def nextToken (input : List Char) (line col : Nat) : LexStep :=
  let s := skipWhitespace input line col
  match s.1, s.2.1, s.2.2 with
  | [], line, col =>
    { tok := { type := .EOF, literal := "", line := line, col := col },
      rest := [], line := line, col := col }
  | c :: rest, line, col => scanToken c rest line col

/-- The producer loop of `Tokenize`: emit tokens until (and including) the
first `EOF` token.  The Go loop is unbounded; here it carries fuel, and
`tokenize` below supplies fuel that provably suffices. -/
def tokenizeAux : Nat → List Char → Nat → Nat → List Token
  | 0, _, _, _ => []
  | fuel + 1, l, line, col =>
    let s := nextToken l line col
    if s.tok.type = TokenType.EOF then [s.tok]
    else s.tok :: tokenizeAux fuel s.rest s.line s.col

/-- tokenizer.go `Tokenize` on a whole input: the token stream produced on
the channel, with position counters starting at line 1, column 1. -/
def tokenize (s : String) : List Token :=
  tokenizeAux (s.toList.length + 1) s.toList 1 1

/-- Whether the scan loop of `readString` can reach a closing quote: a bare
quote closes, a backslash skips the following character, everything else is
consumed.  This is the specification-side reading of "the closing delimiter
is missing before end-of-input" for single-quoted strings. -/
def hasClosingQuote : List Char → Bool
  | [] => false
  | c :: rest =>
    if c = '"' then true
    else if c = '\\' then
      match rest with
      | _ :: rest2 => hasClosingQuote rest2
      | [] => false
    else hasClosingQuote rest
termination_by structural l => l

/-- Whether the scan loop of `readTripleQuotedString` can reach a closing
`\x22\x22\x22` while at least three characters remain. -/
def hasClosingTripleQuote : List Char → Bool
  | a :: b :: c :: rest =>
    if a = '"' ∧ b = '"' ∧ c = '"' then true
    else hasClosingTripleQuote (b :: c :: rest)
  | _ => false
termination_by structural l => l

/-- The 1-indexed source line of character index `i` of `s`: one more than
the number of newline characters strictly before `i`. -/
def lineOfIndex (s : String) (i : Nat) : Nat :=
  1 + ((s.toList.take i).count '\n')

/-- The 1-indexed source column of character index `i` of `s`: the number
of characters after the last newline before `i`, plus one. -/
def colOfIndex (s : String) (i : Nat) : Nat :=
  ((s.toList.take i).reverse.takeWhile (fun c => !(c = '\n'))).length + 1

/-- Input for the C7 counterexample, the five characters
`\x22 \x5c newline \x22 x`: a string literal containing a backslash-escaped
newline, followed by the identifier `x` (which is on source line 2). -/
def c7Input : String := "\"\\\n\"x"

/-! ## Parser data model (parser.go) -/

/-- parser.go `OperationType`. -/
inductive OperationType where
  | query | mutation | subscription
deriving DecidableEq, Repr

/-- parser.go `OperationType.String`. -/
def OperationType.str : OperationType → String
  | .query => "Query"
  | .mutation => "Mutation"
  | .subscription => "Subscription"

/-- `strings.ToLower(OperationType.String())` as used by
`generateFormattedGraphQLString`, written out per constructor. -/
def OperationType.strLower : OperationType → String
  | .query => "query"
  | .mutation => "mutation"
  | .subscription => "subscription"

/-- parser.go `Value` and its variants; `Variable` is `variableValue` here.
The parser never constructs `listValue`/`objectValue` (its `parseValue` has
no bracket cases), but the data model declares them. -/
inductive Value where
  | stringValue (v : String)
  | intValue (v : String)
  | floatValue (v : String)
  | booleanValue (v : Bool)
  | nullValue
  | variableValue (name : String)
  | listValue (values : List Value)
  | objectValue (fields : List (String × Value))
deriving Repr

/-- parser.go `Type` with variants `NamedType`, `ListType`, `NonNullType`. -/
inductive AstType where
  | namedType (name : String)
  | listType (t : AstType)
  | nonNullType (t : AstType)
deriving DecidableEq, Repr

/-- parser.go `Type.String`. -/
def AstType.str : AstType → String
  | .namedType name => name
  | .listType t => "[" ++ t.str ++ "]"
  | .nonNullType t => t.str ++ "!"

/-- parser.go `Argument`. -/
structure Argument where
  name : String
  value : Value
deriving Repr

/-- parser.go `Directive`. -/
structure Directive where
  name : String
  arguments : List Argument
deriving Repr

/-- parser.go `VariableDefinition`. -/
structure VariableDefinition where
  name : String
  type : AstType
  defaultValue : Option Value
  metadata : List String
deriving Repr

/-! parser.go `Selection` variants `Field`, `FragmentSpread` and
`InlineFragment`.  The selection list and the optional nested selection
set (`*SelectionSet` in Go: nil or present) are their own inductives in
one mutual family, so that every recursion over selections is
structural. -/
mutual
inductive Selection where
  | field (aliasName : Option String) (name : String) (arguments : List Argument)
      (directives : List Directive) (selectionSet : OptSelectionSet)
      (metadata : List String)
  | fragmentSpread (name : String) (directives : List Directive)
      (metadata : List String)
  | inlineFragment (typeName : Option String) (directives : List Directive)
      (selectionSet : SelectionList) (metadata : List String)

inductive OptSelectionSet where
  | noneSet
  | someSet (ss : SelectionList)

inductive SelectionList where
  | nil
  | cons (head : Selection) (tail : SelectionList)
end

deriving instance Repr for Selection
deriving instance Repr for OptSelectionSet
deriving instance Repr for SelectionList

/-- parser.go `SelectionSet` (its `Selections` slice). -/
abbrev SelectionSet := SelectionList

/-- Append on selection lists (Go slice `append`). -/
def SelectionList.append : SelectionList → SelectionList → SelectionList
  | .nil, ys => ys
  | .cons x xs, ys => .cons x (SelectionList.append xs ys)

/-- parser.go `OperationDefinition`; the Go field `Variables` is named
`varDefs` because `variables` is reserved in Lean. -/
structure OperationDefinition where
  type : OperationType
  name : Option String
  varDefs : List VariableDefinition
  directives : List Directive
  selectionSet : SelectionSet
  metadata : List String
deriving Repr

/-- parser.go `FragmentDefinition`. -/
structure FragmentDefinition where
  name : String
  typeName : String
  directives : List Directive
  selectionSet : SelectionSet
  metadata : List String
deriving Repr

/-- parser.go `InputValueDefinition` (AST side). -/
structure AstInputValueDefinition where
  name : String
  type : AstType
  defaultValue : Option Value
  directives : List Directive
  metadata : List String
deriving Repr

/-- parser.go `FieldDefinition` (AST side). -/
structure AstFieldDefinition where
  name : String
  arguments : List AstInputValueDefinition
  type : AstType
  directives : List Directive
  metadata : List String
deriving Repr

/-- parser.go `TypeDefinition` (AST side). -/
structure AstTypeDefinition where
  name : String
  interfaces : List String
  fields : List AstFieldDefinition
  directives : List Directive
  metadata : List String
deriving Repr

/-- parser.go `InputTypeDefinition` (AST side). -/
structure AstInputTypeDefinition where
  name : String
  fields : List AstInputValueDefinition
  directives : List Directive
  metadata : List String
deriving Repr

/-- parser.go `EnumValueDefinition` (AST side). -/
structure AstEnumValueDefinition where
  name : String
  directives : List Directive
  metadata : List String
deriving Repr

/-- parser.go `EnumTypeDefinition` (AST side). -/
structure AstEnumTypeDefinition where
  name : String
  values : List AstEnumValueDefinition
  directives : List Directive
  metadata : List String
deriving Repr

/-- parser.go `ScalarTypeDefinition` (AST side). -/
structure AstScalarTypeDefinition where
  name : String
  directives : List Directive
  metadata : List String
deriving Repr

/-- parser.go `InterfaceTypeDefinition` (AST side). -/
structure AstInterfaceTypeDefinition where
  name : String
  fields : List AstFieldDefinition
  directives : List Directive
  metadata : List String
deriving Repr

/-- parser.go `UnionTypeDefinition` (AST side). -/
structure AstUnionTypeDefinition where
  name : String
  types : List String
  directives : List Directive
  metadata : List String
deriving Repr

/-- The closed set of top-level AST nodes implementing the Go `AST`
interface (Documents and Errors are handled by the channel model). -/
inductive ASTNode where
  | operationDefinition (od : OperationDefinition)
  | fragmentDefinition (fd : FragmentDefinition)
  | typeDefinition (td : AstTypeDefinition)
  | inputTypeDefinition (d : AstInputTypeDefinition)
  | enumTypeDefinition (d : AstEnumTypeDefinition)
  | scalarTypeDefinition (d : AstScalarTypeDefinition)
  | interfaceTypeDefinition (d : AstInterfaceTypeDefinition)
  | unionTypeDefinition (d : AstUnionTypeDefinition)
deriving Repr

/-! ## Parser state and helpers (parser.go) -/

/-- parser.go `parser`: the token channel is modelled as the list of tokens
not yet pulled into the two-token lookahead buffer. -/
structure ParserState where
  tokens : List Token
  currentToken : Token
  peekToken : Token
  pendingComment : List String
deriving Repr

/-- The Go zero value of `Token` (`TokenType` zero value is `ILLEGAL`). -/
def zeroToken : Token := { type := .ILLEGAL, literal := "", line := 0, col := 0 }

/-- The token `Token{Type: tokenizer.EOF}` produced by `parser.nextToken`
when the channel is closed. -/
def eofDefaultToken : Token := { type := .EOF, literal := "", line := 0, col := 0 }

/-- parser.go `parser.nextToken`: promote `peekToken` to `currentToken`
and pull the next channel token into `peekToken`; when the channel is
exhausted (closed), `peekToken` becomes an end-of-input token. -/
def ParserState.nextToken (p : ParserState) : ParserState :=
  match p.tokens with
  | [] => { p with currentToken := p.peekToken, peekToken := eofDefaultToken }
  | t :: ts => { p with currentToken := p.peekToken, peekToken := t, tokens := ts }

/-- parser.go `newParser`: two initial advances fill the lookahead buffer. -/
def newParser (tokens : List Token) : ParserState :=
  (ParserState.nextToken (ParserState.nextToken
    { tokens := tokens, currentToken := zeroToken, peekToken := zeroToken,
      pendingComment := [] }))

/-- Iterated `parser.nextToken`. -/
def advanceN : Nat → ParserState → ParserState
  | 0, p => p
  | n + 1, p => advanceN n p.nextToken

/-- tokenizer.go `TokenType.String`, used in parser error messages. -/
def TokenType.str : TokenType → String
  | .ILLEGAL => "ILLEGAL"
  | .EOF => "EOF"
  | .IDENT => "IDENT"
  | .INT => "INT"
  | .FLOAT => "FLOAT"
  | .STRING => "STRING"
  | .QUERY => "QUERY"
  | .MUTATION => "MUTATION"
  | .SUBSCRIPTION => "SUBSCRIPTION"
  | .FRAGMENT => "FRAGMENT"
  | .ON => "ON"
  | .TYPE => "TYPE"
  | .SCHEMA => "SCHEMA"
  | .SCALAR => "SCALAR"
  | .ENUM => "ENUM"
  | .INTERFACE => "INTERFACE"
  | .UNION => "UNION"
  | .INPUT => "INPUT"
  | .EXTEND => "EXTEND"
  | .DIRECTIVE => "DIRECTIVE"
  | .IMPLEMENTS => "IMPLEMENTS"
  | .LBRACE => "LBRACE"
  | .RBRACE => "RBRACE"
  | .LBRACKET => "LBRACKET"
  | .RBRACKET => "RBRACKET"
  | .LPAREN => "LPAREN"
  | .RPAREN => "RPAREN"
  | .COLON => "COLON"
  | .COMMA => "COMMA"
  | .EQUALS => "EQUALS"
  | .AT => "AT"
  | .DOLLAR => "DOLLAR"
  | .BANG => "BANG"
  | .PIPE => "PIPE"
  | .AMP => "AMP"
  | .SPREAD => "SPREAD"
  | .COMMENT => "COMMENT"

/-- Position suffix of the Go panic messages:
`... at line %d, column %d`. -/
def atPos (t : Token) : String :=
  " at line " ++ toString t.line ++ ", column " ++ toString t.col

/-- parser.go `expectToken`: the panic becomes an error value. -/
def expectToken (p : ParserState) (expected : TokenType) : Except String Unit :=
  if p.currentToken.type = expected then .ok ()
  else .error ("expected " ++ expected.str ++ ", got " ++ p.currentToken.type.str
    ++ atPos p.currentToken)

/-- parser.go `parser.handleComment`: trim the text after `#` into the
pending-metadata buffer and advance. -/
def handleComment (p : ParserState) : ParserState :=
  ParserState.nextToken
    { p with pendingComment :=
        p.pendingComment ++ [((p.currentToken.literal.drop 1).trim)] }

/-- parser.go `parser.handleDocumentation`: a triple-quoted string has its
delimiters stripped and trimmed content (when non-empty) appended to the
pending-metadata buffer; then advance. -/
def handleDocumentation (p : ParserState) : ParserState :=
  let content := p.currentToken.literal
  let p' :=
    if content.startsWith ("\"\"\"") && content.endsWith ("\"\"\"") then
      let inner := ((content.drop 3).dropRight 3).trim
      if inner = "" then p
      else { p with pendingComment := p.pendingComment ++ [inner] }
    else p
  ParserState.nextToken p'

/-- parser.go `parser.extractMetadata`: pop the pending-metadata buffer. -/
def extractMetadata (p : ParserState) : List String × ParserState :=
  (p.pendingComment, { p with pendingComment := [] })

/-- parser.go `isNameToken`: keywords are valid names at field, argument
and directive name positions. -/
def isNameToken (tokenType : TokenType) : Bool :=
  match tokenType with
  | .IDENT | .QUERY | .MUTATION | .SUBSCRIPTION | .FRAGMENT | .ON | .TYPE
  | .SCHEMA | .SCALAR | .ENUM | .INTERFACE | .UNION | .INPUT | .EXTEND
  | .DIRECTIVE | .IMPLEMENTS => true
  | _ => false

/-- parser.go `parseValue`: scalar literals, `true`/`false`/`null`, and
`$name` variables; any other token is a (fatal) error.  There are no list
or object literal cases. -/
def parseValue (p : ParserState) : Except String (Value × ParserState) :=
  match p.currentToken.type with
  | .STRING => .ok (.stringValue p.currentToken.literal, p.nextToken)
  | .INT => .ok (.intValue p.currentToken.literal, p.nextToken)
  | .FLOAT => .ok (.floatValue p.currentToken.literal, p.nextToken)
  | .IDENT =>
    let literal := p.currentToken.literal
    let p := p.nextToken
    if literal = "true" then .ok (.booleanValue true, p)
    else if literal = "false" then .ok (.booleanValue false, p)
    else if literal = "null" then .ok (.nullValue, p)
    else .error ("unexpected identifier in value: " ++ literal ++ atPos p.currentToken)
  | .DOLLAR =>
    let p := p.nextToken
    if p.currentToken.type = .IDENT then
      .ok (.variableValue p.currentToken.literal, p.nextToken)
    else .error ("expected variable name, got " ++ p.currentToken.type.str
      ++ atPos p.currentToken)
  | _ => .error ("unexpected token in value: " ++ p.currentToken.type.str
      ++ atPos p.currentToken)

/-- Error used when the explicit parser fuel runs out; the fuel chosen by
`Parse` below is large enough that concrete runs never reach it. -/
def fuelError : String := "parser out of fuel"

/-! ## The recursive-descent parser (parser.go), fuel-indexed -/

mutual

/-- parser.go `parser.skipCommentsAndDocs`. -/
def skipCommentsAndDocs : Nat → ParserState → Except String ParserState
  | 0, _ => .error fuelError
  | fuel + 1, p =>
    match p.currentToken.type with
    | .COMMENT => skipCommentsAndDocs fuel (handleComment p)
    | .STRING =>
      if p.currentToken.literal.startsWith ("\"\"\"") then
        skipCommentsAndDocs fuel (handleDocumentation p)
      else .ok p
    | _ => .ok p

/-- parser.go `parseType`. -/
def parseType : Nat → ParserState → Except String (AstType × ParserState)
  | 0, _ => .error fuelError
  | fuel + 1, p => do
    let (t, p) ←
      if p.currentToken.type = .LBRACKET then do
        let p := p.nextToken
        let (inner, p) ← parseType fuel p
        let _ ← expectToken p .RBRACKET
        pure (AstType.listType inner, p.nextToken)
      else if p.currentToken.type = .IDENT then
        pure (AstType.namedType p.currentToken.literal, p.nextToken)
      else
        .error ("expected type, got " ++ p.currentToken.type.str ++ atPos p.currentToken)
    if p.currentToken.type = .BANG then
      pure (AstType.nonNullType t, p.nextToken)
    else
      pure (t, p)

/-- parser.go `parseDirective`. -/
def parseDirective : Nat → ParserState → Except String (Directive × ParserState)
  | 0, _ => .error fuelError
  | fuel + 1, p => do
    let _ ← expectToken p .AT
    let p := p.nextToken
    if isNameToken p.currentToken.type then do
      let name := p.currentToken.literal
      let p := p.nextToken
      if p.currentToken.type = .LPAREN then do
        let (args, p) ← parseArguments fuel p
        pure ({ name := name, arguments := args }, p)
      else
        pure ({ name := name, arguments := [] }, p)
    else
      .error ("expected directive name, got " ++ p.currentToken.type.str
        ++ atPos p.currentToken)

/-- The `for p.currentToken.Type == tokenizer.AT` loops that collect
directives before a body. -/
def parseDirectivesLoop : Nat → List Directive → ParserState →
    Except String (List Directive × ParserState)
  | 0, _, _ => .error fuelError
  | fuel + 1, acc, p =>
    if p.currentToken.type = .AT then do
      let (d, p) ← parseDirective fuel p
      parseDirectivesLoop fuel (acc ++ [d]) p
    else
      .ok (acc, p)

/-- parser.go `parseArgument`. -/
def parseArgument : Nat → ParserState → Except String (Argument × ParserState)
  | 0, _ => .error fuelError
  | _ + 1, p => do
    if isNameToken p.currentToken.type then do
      let name := p.currentToken.literal
      let p := p.nextToken
      let _ ← expectToken p .COLON
      let p := p.nextToken
      let (v, p) ← parseValue p
      pure ({ name := name, value := v }, p)
    else
      .error ("expected argument name, got " ++ p.currentToken.type.str
        ++ atPos p.currentToken)

/-- Loop body of parser.go `parseArguments`. -/
def parseArgumentsLoop : Nat → List Argument → ParserState →
    Except String (List Argument × ParserState)
  | 0, _, _ => .error fuelError
  | fuel + 1, acc, p =>
    if p.currentToken.type = .RPAREN then .ok (acc, p)
    else if p.currentToken.type = .EOF then .error ("unexpected EOF in arguments")
    else do
      let p ← skipCommentsAndDocs fuel p
      if p.currentToken.type = .RPAREN then .ok (acc, p)
      else do
        let (arg, p) ← parseArgument fuel p
        let p := if p.currentToken.type = .COMMA then p.nextToken else p
        parseArgumentsLoop fuel (acc ++ [arg]) p

/-- parser.go `parseArguments`. -/
def parseArguments : Nat → ParserState → Except String (List Argument × ParserState)
  | 0, _ => .error fuelError
  | fuel + 1, p => do
    let _ ← expectToken p .LPAREN
    let p := p.nextToken
    let (args, p) ← parseArgumentsLoop fuel [] p
    let _ ← expectToken p .RPAREN
    pure (args, p.nextToken)

/-- parser.go `parseVariableDefinition`. -/
def parseVariableDefinition : Nat → ParserState →
    Except String (VariableDefinition × ParserState)
  | 0, _ => .error fuelError
  | fuel + 1, p => do
    let (metadata, p) := extractMetadata p
    let _ ← expectToken p .DOLLAR
    let p := p.nextToken
    if p.currentToken.type = .IDENT then do
      let name := p.currentToken.literal
      let p := p.nextToken
      let _ ← expectToken p .COLON
      let p := p.nextToken
      let (varType, p) ← parseType fuel p
      if p.currentToken.type = .EQUALS then do
        let p := p.nextToken
        let (v, p) ← parseValue p
        pure ({ name := name, type := varType, defaultValue := some v,
                metadata := metadata }, p)
      else
        pure ({ name := name, type := varType, defaultValue := none,
                metadata := metadata }, p)
    else
      .error ("expected variable name, got " ++ p.currentToken.type.str
        ++ atPos p.currentToken)

/-- Loop body of parser.go `parseVariableDefinitions`. -/
def parseVariableDefinitionsLoop : Nat → List VariableDefinition → ParserState →
    Except String (List VariableDefinition × ParserState)
  | 0, _, _ => .error fuelError
  | fuel + 1, acc, p =>
    if p.currentToken.type = .RPAREN then .ok (acc, p)
    else if p.currentToken.type = .EOF then
      .error ("unexpected EOF in variable definitions")
    else do
      let p ← skipCommentsAndDocs fuel p
      if p.currentToken.type = .RPAREN then .ok (acc, p)
      else do
        let (v, p) ← parseVariableDefinition fuel p
        let p := if p.currentToken.type = .COMMA then p.nextToken else p
        parseVariableDefinitionsLoop fuel (acc ++ [v]) p

/-- parser.go `parseVariableDefinitions`. -/
def parseVariableDefinitions : Nat → ParserState →
    Except String (List VariableDefinition × ParserState)
  | 0, _ => .error fuelError
  | fuel + 1, p => do
    let _ ← expectToken p .LPAREN
    let p := p.nextToken
    let (vars, p) ← parseVariableDefinitionsLoop fuel [] p
    let _ ← expectToken p .RPAREN
    pure (vars, p.nextToken)

/-- parser.go `parseField`: tentative alias/name resolution, arguments,
directives, and an optional nested selection set. -/
def parseField : Nat → ParserState → Except String (Selection × ParserState)
  | 0, _ => .error fuelError
  | fuel + 1, p => do
    let (metadata, p) := extractMetadata p
    if isNameToken p.currentToken.type then do
      let name := p.currentToken.literal
      let p := p.nextToken
      let (aliasName, name, p) ←
        if p.currentToken.type = .COLON then do
          let p := p.nextToken
          if isNameToken p.currentToken.type then
            pure (some name, p.currentToken.literal, p.nextToken)
          else
            .error ("expected field name after alias, got " ++ p.currentToken.type.str
              ++ atPos p.currentToken)
        else
          pure ((none : Option String), name, p)
      let (arguments, p) ←
        if p.currentToken.type = .LPAREN then parseArguments fuel p
        else pure ([], p)
      let (directives, p) ← parseDirectivesLoop fuel [] p
      if p.currentToken.type = .LBRACE then do
        let (ss, p) ← parseSelectionSet fuel p
        pure (Selection.field aliasName name arguments directives (.someSet ss) metadata, p)
      else
        pure (Selection.field aliasName name arguments directives .noneSet metadata, p)
    else
      .error ("expected field name, got " ++ p.currentToken.type.str
        ++ atPos p.currentToken)

/-- parser.go `parseFragmentSpread` (also produces inline fragments). -/
def parseFragmentSpread : Nat → ParserState → Except String (Selection × ParserState)
  | 0, _ => .error fuelError
  | fuel + 1, p => do
    let (metadata, p) := extractMetadata p
    let _ ← expectToken p .SPREAD
    let p := p.nextToken
    if p.currentToken.type = .ON then do
      let p := p.nextToken
      let (typeName, p) :=
        if p.currentToken.type = .IDENT then
          (some p.currentToken.literal, p.nextToken)
        else ((none : Option String), p)
      let (directives, p) ← parseDirectivesLoop fuel [] p
      let (ss, p) ← parseSelectionSet fuel p
      pure (Selection.inlineFragment typeName directives ss metadata, p)
    else if p.currentToken.type = .IDENT then do
      let name := p.currentToken.literal
      let p := p.nextToken
      let (directives, p) ← parseDirectivesLoop fuel [] p
      pure (Selection.fragmentSpread name directives metadata, p)
    else
      .error ("expected fragment name, got " ++ p.currentToken.type.str
        ++ atPos p.currentToken)

/-- parser.go `parseSelection`: note the dispatch accepts only `SPREAD`
and `IDENT` — a keyword token at selection position is a parse error even
though `parseField` itself accepts any name token. -/
def parseSelection : Nat → ParserState → Except String (Selection × ParserState)
  | 0, _ => .error fuelError
  | fuel + 1, p =>
    match p.currentToken.type with
    | .SPREAD => parseFragmentSpread fuel p
    | .IDENT => parseField fuel p
    | _ => .error ("unexpected token in selection: " ++ p.currentToken.type.str
        ++ atPos p.currentToken)

/-- Loop body of parser.go `parseSelectionSet`. -/
def parseSelectionSetLoop : Nat → SelectionList → ParserState →
    Except String (SelectionList × ParserState)
  | 0, _, _ => .error fuelError
  | fuel + 1, acc, p =>
    if p.currentToken.type = .RBRACE then .ok (acc, p)
    else if p.currentToken.type = .EOF then .error ("unexpected EOF in selection set")
    else do
      let p ← skipCommentsAndDocs fuel p
      if p.currentToken.type = .RBRACE then .ok (acc, p)
      else do
        let (sel, p) ← parseSelection fuel p
        parseSelectionSetLoop fuel (acc.append (.cons sel .nil)) p

/-- parser.go `parseSelectionSet`. -/
def parseSelectionSet : Nat → ParserState →
    Except String (SelectionList × ParserState)
  | 0, _ => .error fuelError
  | fuel + 1, p => do
    let _ ← expectToken p .LBRACE
    let p := p.nextToken
    let (sels, p) ← parseSelectionSetLoop fuel .nil p
    let _ ← expectToken p .RBRACE
    pure (sels, p.nextToken)

end

/-! ## Definition-level parsers (parser.go), fuel-indexed -/

/-- parser.go `parseOperationDefinition`. -/
def parseOperationDefinition (fuel : Nat) (p : ParserState) :
    Except String (OperationDefinition × ParserState) := do
  let (metadata, p) := extractMetadata p
  let opType ←
    match p.currentToken.type with
    | .QUERY => pure OperationType.query
    | .MUTATION => pure OperationType.mutation
    | .SUBSCRIPTION => pure OperationType.subscription
    | _ => .error ("expected operation type, got " ++ p.currentToken.type.str
        ++ atPos p.currentToken)
  let p := p.nextToken
  let (name, p) :=
    if p.currentToken.type = .IDENT then
      (some p.currentToken.literal, p.nextToken)
    else ((none : Option String), p)
  let (vars, p) ←
    if p.currentToken.type = .LPAREN then parseVariableDefinitions fuel p
    else pure ([], p)
  let (directives, p) ← parseDirectivesLoop fuel [] p
  let (ss, p) ← parseSelectionSet fuel p
  pure ({ type := opType, name := name, varDefs := vars,
          directives := directives, selectionSet := ss, metadata := metadata }, p)

/-- parser.go `parseAnonymousQuery`. -/
def parseAnonymousQuery (fuel : Nat) (p : ParserState) :
    Except String (OperationDefinition × ParserState) := do
  let (metadata, p) := extractMetadata p
  let (ss, p) ← parseSelectionSet fuel p
  pure ({ type := .query, name := none, varDefs := [], directives := [],
          selectionSet := ss, metadata := metadata }, p)

/-- parser.go `parseFragmentDefinition`. -/
def parseFragmentDefinition (fuel : Nat) (p : ParserState) :
    Except String (FragmentDefinition × ParserState) := do
  let (metadata, p) := extractMetadata p
  let _ ← expectToken p .FRAGMENT
  let p := p.nextToken
  if p.currentToken.type = .IDENT then do
    let name := p.currentToken.literal
    let p := p.nextToken
    let _ ← expectToken p .ON
    let p := p.nextToken
    if p.currentToken.type = .IDENT then do
      let typeName := p.currentToken.literal
      let p := p.nextToken
      let (directives, p) ← parseDirectivesLoop fuel [] p
      let (ss, p) ← parseSelectionSet fuel p
      pure ({ name := name, typeName := typeName, directives := directives,
              selectionSet := ss, metadata := metadata }, p)
    else
      .error ("expected type name, got " ++ p.currentToken.type.str
        ++ atPos p.currentToken)
  else
    .error ("expected fragment name, got " ++ p.currentToken.type.str
      ++ atPos p.currentToken)

/-- parser.go `parseImplementsInterfaces`. -/
def parseImplementsInterfacesLoop : Nat → List String → ParserState →
    Except String (List String × ParserState)
  | 0, _, _ => .error fuelError
  | fuel + 1, acc, p =>
    if p.currentToken.type = .IDENT then
      let acc := acc ++ [p.currentToken.literal]
      let p := p.nextToken
      if p.currentToken.type = .AMP then
        parseImplementsInterfacesLoop fuel acc p.nextToken
      else
        .ok (acc, p)
    else
      .error ("expected interface name, got " ++ p.currentToken.type.str
        ++ atPos p.currentToken)

/-- parser.go `parseImplementsInterfaces` (entry). -/
def parseImplementsInterfaces (fuel : Nat) (p : ParserState) :
    Except String (List String × ParserState) := do
  let _ ← expectToken p .IMPLEMENTS
  parseImplementsInterfacesLoop fuel [] p.nextToken

/-- parser.go `parseInputValueDefinition`. -/
def parseInputValueDefinition (fuel : Nat) (p : ParserState) :
    Except String (AstInputValueDefinition × ParserState) := do
  let (metadata, p) := extractMetadata p
  if isNameToken p.currentToken.type then do
    let name := p.currentToken.literal
    let p := p.nextToken
    let _ ← expectToken p .COLON
    let p := p.nextToken
    let (inputType, p) ← parseType fuel p
    let (defaultValue, p) ←
      if p.currentToken.type = .EQUALS then do
        let p := p.nextToken
        let (v, p) ← parseValue p
        pure ((some v : Option Value), p)
      else pure ((none : Option Value), p)
    let (directives, p) ← parseDirectivesLoop fuel [] p
    pure ({ name := name, type := inputType, defaultValue := defaultValue,
            directives := directives, metadata := metadata }, p)
  else
    .error ("expected input name, got " ++ p.currentToken.type.str
      ++ atPos p.currentToken)

/-- Loop body of parser.go `parseInputValueDefinitions`. -/
def parseInputValueDefinitionsLoop : Nat → List AstInputValueDefinition → ParserState →
    Except String (List AstInputValueDefinition × ParserState)
  | 0, _, _ => .error fuelError
  | fuel + 1, acc, p =>
    if p.currentToken.type = .RPAREN then .ok (acc, p)
    else if p.currentToken.type = .EOF then
      .error ("unexpected EOF in input value definitions")
    else do
      let p ← skipCommentsAndDocs fuel p
      if p.currentToken.type = .RPAREN then .ok (acc, p)
      else do
        let (iv, p) ← parseInputValueDefinition fuel p
        let p := if p.currentToken.type = .COMMA then p.nextToken else p
        parseInputValueDefinitionsLoop fuel (acc ++ [iv]) p

/-- parser.go `parseInputValueDefinitions`. -/
def parseInputValueDefinitions (fuel : Nat) (p : ParserState) :
    Except String (List AstInputValueDefinition × ParserState) := do
  let _ ← expectToken p .LPAREN
  let p := p.nextToken
  let (ivs, p) ← parseInputValueDefinitionsLoop fuel [] p
  let _ ← expectToken p .RPAREN
  pure (ivs, p.nextToken)

/-- parser.go `parseFieldDefinition`. -/
def parseFieldDefinition (fuel : Nat) (p : ParserState) :
    Except String (AstFieldDefinition × ParserState) := do
  let (metadata, p) := extractMetadata p
  if isNameToken p.currentToken.type then do
    let name := p.currentToken.literal
    let p := p.nextToken
    let (arguments, p) ←
      if p.currentToken.type = .LPAREN then parseInputValueDefinitions fuel p
      else pure ([], p)
    let _ ← expectToken p .COLON
    let p := p.nextToken
    let (fieldType, p) ← parseType fuel p
    let (directives, p) ← parseDirectivesLoop fuel [] p
    pure ({ name := name, arguments := arguments, type := fieldType,
            directives := directives, metadata := metadata }, p)
  else
    .error ("expected field name, got " ++ p.currentToken.type.str
      ++ atPos p.currentToken)

/-- Loop body of parser.go `parseFieldDefinitions`. -/
def parseFieldDefinitionsLoop : Nat → List AstFieldDefinition → ParserState →
    Except String (List AstFieldDefinition × ParserState)
  | 0, _, _ => .error fuelError
  | fuel + 1, acc, p =>
    if p.currentToken.type = .RBRACE then .ok (acc, p)
    else if p.currentToken.type = .EOF then
      .error ("unexpected EOF in field definitions")
    else do
      let p ← skipCommentsAndDocs fuel p
      if p.currentToken.type = .RBRACE then .ok (acc, p)
      else do
        let (f, p) ← parseFieldDefinition fuel p
        parseFieldDefinitionsLoop fuel (acc ++ [f]) p

/-- parser.go `parseFieldDefinitions`. -/
def parseFieldDefinitions (fuel : Nat) (p : ParserState) :
    Except String (List AstFieldDefinition × ParserState) := do
  let _ ← expectToken p .LBRACE
  let p := p.nextToken
  let (fs, p) ← parseFieldDefinitionsLoop fuel [] p
  let _ ← expectToken p .RBRACE
  pure (fs, p.nextToken)

/-- parser.go `parseTypeDefinition`. -/
def parseTypeDefinition (fuel : Nat) (p : ParserState) :
    Except String (AstTypeDefinition × ParserState) := do
  let (metadata, p) := extractMetadata p
  let _ ← expectToken p .TYPE
  let p := p.nextToken
  if p.currentToken.type = .IDENT then do
    let name := p.currentToken.literal
    let p := p.nextToken
    let (interfaces, p) ←
      if p.currentToken.type = .IMPLEMENTS then parseImplementsInterfaces fuel p
      else pure ([], p)
    let (directives, p) ← parseDirectivesLoop fuel [] p
    let (fields, p) ←
      if p.currentToken.type = .LBRACE then parseFieldDefinitions fuel p
      else pure ([], p)
    pure ({ name := name, interfaces := interfaces, fields := fields,
            directives := directives, metadata := metadata }, p)
  else
    .error ("expected type name, got " ++ p.currentToken.type.str
      ++ atPos p.currentToken)

/-- Loop body of the input-object field list in parser.go
`parseInputTypeDefinition`. -/
def parseInputTypeFieldsLoop : Nat → List AstInputValueDefinition → ParserState →
    Except String (List AstInputValueDefinition × ParserState)
  | 0, _, _ => .error fuelError
  | fuel + 1, acc, p =>
    if p.currentToken.type = .RBRACE then .ok (acc, p)
    else if p.currentToken.type = .EOF then
      .error ("unexpected EOF in input type definition")
    else do
      let p ← skipCommentsAndDocs fuel p
      if p.currentToken.type = .RBRACE then .ok (acc, p)
      else do
        let (f, p) ← parseInputValueDefinition fuel p
        parseInputTypeFieldsLoop fuel (acc ++ [f]) p

/-- parser.go `parseInputTypeDefinition`. -/
def parseInputTypeDefinition (fuel : Nat) (p : ParserState) :
    Except String (AstInputTypeDefinition × ParserState) := do
  let (metadata, p) := extractMetadata p
  let _ ← expectToken p .INPUT
  let p := p.nextToken
  if p.currentToken.type = .IDENT then do
    let name := p.currentToken.literal
    let p := p.nextToken
    let (directives, p) ← parseDirectivesLoop fuel [] p
    let (fields, p) ←
      if p.currentToken.type = .LBRACE then do
        let p := p.nextToken
        let (fs, p) ← parseInputTypeFieldsLoop fuel [] p
        let _ ← expectToken p .RBRACE
        pure (fs, p.nextToken)
      else pure ([], p)
    pure ({ name := name, fields := fields, directives := directives,
            metadata := metadata }, p)
  else
    .error ("expected input type name, got " ++ p.currentToken.type.str
      ++ atPos p.currentToken)

/-- parser.go `parseEnumValueDefinition`. -/
def parseEnumValueDefinition (fuel : Nat) (p : ParserState) :
    Except String (AstEnumValueDefinition × ParserState) := do
  let (metadata, p) := extractMetadata p
  if p.currentToken.type = .IDENT then do
    let name := p.currentToken.literal
    let p := p.nextToken
    let (directives, p) ← parseDirectivesLoop fuel [] p
    pure ({ name := name, directives := directives, metadata := metadata }, p)
  else
    .error ("expected enum value name, got " ++ p.currentToken.type.str
      ++ atPos p.currentToken)

/-- Loop body of the enum value list in parser.go `parseEnumTypeDefinition`. -/
def parseEnumValuesLoop : Nat → List AstEnumValueDefinition → ParserState →
    Except String (List AstEnumValueDefinition × ParserState)
  | 0, _, _ => .error fuelError
  | fuel + 1, acc, p =>
    if p.currentToken.type = .RBRACE then .ok (acc, p)
    else if p.currentToken.type = .EOF then
      .error ("unexpected EOF in enum definition")
    else do
      let p ← skipCommentsAndDocs fuel p
      if p.currentToken.type = .RBRACE then .ok (acc, p)
      else do
        let (v, p) ← parseEnumValueDefinition fuel p
        parseEnumValuesLoop fuel (acc ++ [v]) p

/-- parser.go `parseEnumTypeDefinition`. -/
def parseEnumTypeDefinition (fuel : Nat) (p : ParserState) :
    Except String (AstEnumTypeDefinition × ParserState) := do
  let (metadata, p) := extractMetadata p
  let _ ← expectToken p .ENUM
  let p := p.nextToken
  if p.currentToken.type = .IDENT then do
    let name := p.currentToken.literal
    let p := p.nextToken
    let (directives, p) ← parseDirectivesLoop fuel [] p
    let (values, p) ←
      if p.currentToken.type = .LBRACE then do
        let p := p.nextToken
        let (vs, p) ← parseEnumValuesLoop fuel [] p
        let _ ← expectToken p .RBRACE
        pure (vs, p.nextToken)
      else pure ([], p)
    pure ({ name := name, values := values, directives := directives,
            metadata := metadata }, p)
  else
    .error ("expected enum name, got " ++ p.currentToken.type.str
      ++ atPos p.currentToken)

/-- parser.go `parseScalarTypeDefinition`. -/
def parseScalarTypeDefinition (fuel : Nat) (p : ParserState) :
    Except String (AstScalarTypeDefinition × ParserState) := do
  let (metadata, p) := extractMetadata p
  let _ ← expectToken p .SCALAR
  let p := p.nextToken
  if p.currentToken.type = .IDENT then do
    let name := p.currentToken.literal
    let p := p.nextToken
    let (directives, p) ← parseDirectivesLoop fuel [] p
    pure ({ name := name, directives := directives, metadata := metadata }, p)
  else
    .error ("expected scalar name, got " ++ p.currentToken.type.str
      ++ atPos p.currentToken)

/-- parser.go `parseInterfaceTypeDefinition`. -/
def parseInterfaceTypeDefinition (fuel : Nat) (p : ParserState) :
    Except String (AstInterfaceTypeDefinition × ParserState) := do
  let (metadata, p) := extractMetadata p
  let _ ← expectToken p .INTERFACE
  let p := p.nextToken
  if p.currentToken.type = .IDENT then do
    let name := p.currentToken.literal
    let p := p.nextToken
    let (directives, p) ← parseDirectivesLoop fuel [] p
    let (fields, p) ←
      if p.currentToken.type = .LBRACE then parseFieldDefinitions fuel p
      else pure ([], p)
    pure ({ name := name, fields := fields, directives := directives,
            metadata := metadata }, p)
  else
    .error ("expected interface name, got " ++ p.currentToken.type.str
      ++ atPos p.currentToken)

/-- Union member loop of parser.go `parseUnionTypeDefinition`. -/
def parseUnionMembersLoop : Nat → List String → ParserState →
    Except String (List String × ParserState)
  | 0, _, _ => .error fuelError
  | fuel + 1, acc, p =>
    if p.currentToken.type = .IDENT then
      let acc := acc ++ [p.currentToken.literal]
      let p := p.nextToken
      if p.currentToken.type = .PIPE then
        parseUnionMembersLoop fuel acc p.nextToken
      else
        .ok (acc, p)
    else
      .error ("expected type name, got " ++ p.currentToken.type.str
        ++ atPos p.currentToken)

/-- parser.go `parseUnionTypeDefinition`. -/
def parseUnionTypeDefinition (fuel : Nat) (p : ParserState) :
    Except String (AstUnionTypeDefinition × ParserState) := do
  let (metadata, p) := extractMetadata p
  let _ ← expectToken p .UNION
  let p := p.nextToken
  if p.currentToken.type = .IDENT then do
    let name := p.currentToken.literal
    let p := p.nextToken
    let (directives, p) ← parseDirectivesLoop fuel [] p
    let (types, p) ←
      if p.currentToken.type = .EQUALS then
        parseUnionMembersLoop fuel [] p.nextToken
      else pure ([], p)
    pure ({ name := name, types := types, directives := directives,
            metadata := metadata }, p)
  else
    .error ("expected union name, got " ++ p.currentToken.type.str
      ++ atPos p.currentToken)

/-- parser.go `parseDefinition`: top-level dispatch; `EOF` yields no node
(the Go function returns nil there). -/
def parseDefinition (fuel : Nat) (p : ParserState) :
    Except String (Option ASTNode × ParserState) :=
  match p.currentToken.type with
  | .QUERY | .MUTATION | .SUBSCRIPTION => do
    let (od, p) ← parseOperationDefinition fuel p
    pure (some (ASTNode.operationDefinition od), p)
  | .FRAGMENT => do
    let (fd, p) ← parseFragmentDefinition fuel p
    pure (some (ASTNode.fragmentDefinition fd), p)
  | .TYPE => do
    let (td, p) ← parseTypeDefinition fuel p
    pure (some (ASTNode.typeDefinition td), p)
  | .INPUT => do
    let (d, p) ← parseInputTypeDefinition fuel p
    pure (some (ASTNode.inputTypeDefinition d), p)
  | .ENUM => do
    let (d, p) ← parseEnumTypeDefinition fuel p
    pure (some (ASTNode.enumTypeDefinition d), p)
  | .SCALAR => do
    let (d, p) ← parseScalarTypeDefinition fuel p
    pure (some (ASTNode.scalarTypeDefinition d), p)
  | .INTERFACE => do
    let (d, p) ← parseInterfaceTypeDefinition fuel p
    pure (some (ASTNode.interfaceTypeDefinition d), p)
  | .UNION => do
    let (d, p) ← parseUnionTypeDefinition fuel p
    pure (some (ASTNode.unionTypeDefinition d), p)
  | .LBRACE => do
    let (od, p) ← parseAnonymousQuery fuel p
    pure (some (ASTNode.operationDefinition od), p)
  | .EOF => pure (none, p)
  | _ => .error ("unexpected token " ++ p.currentToken.type.str ++ atPos p.currentToken)

/-- The top-level loop of parser.go `Parse`: fold comments and doc-strings
into the pending-metadata buffer and emit parsed definitions until `EOF`. -/
def parseLoop : Nat → List ASTNode → ParserState → Except String (List ASTNode)
  | 0, _, _ => .error fuelError
  | fuel + 1, acc, p =>
    if p.currentToken.type = .EOF then .ok acc
    else if p.currentToken.type = .COMMENT then parseLoop fuel acc (handleComment p)
    else if p.currentToken.type = .STRING then parseLoop fuel acc (handleDocumentation p)
    else do
      let (node, p) ← parseDefinition fuel p
      match node with
      | some n => parseLoop fuel (acc ++ [n]) p
      | none => parseLoop fuel acc p

/-- parser.go `Parse` on a whole source text: tokenize, initialize the
two-token lookahead, and run the top-level loop.  The fuel bounds the
recursion depth of the parser and is generous for any input of this size;
concrete runs below never exhaust it. -/
def Parse (s : String) : Except String (List ASTNode) :=
  let tokens := tokenize s
  parseLoop ((tokens.length + 2) * 4) [] (newParser tokens)

/-! ## Pretty-printing (parser.go `FormattedString` family) -/

/-- Go `strings.Repeat`. -/
def strRepeat (s : String) (n : Nat) : String :=
  String.join (List.replicate n s)

mutual

/-- parser.go `Field.FormattedString` (on the fields of a `Field`): alias,
name, arguments — where a non-variable argument value is printed as
`$<argument name>` (the Go source's TODO fallback) — and the nested
selection set, when present, at `indent + 1`.  The body of
`SelectionSet.FormattedString` is inlined at the nested-set positions so
that the mutual recursion is structural; `selectionSetFormattedString`
below is the standalone version. -/
def fieldFormattedString (aliasName : Option String) (name : String)
    (arguments : List Argument) (selectionSet : OptSelectionSet)
    (indent : Nat) : String :=
  (match aliasName with
   | some a => a ++ ": "
   | none => "") ++
  name ++
  (match arguments with
   | [] => ""
   | _ => "(" ++ String.intercalate (", ")
       (arguments.map (fun arg =>
         arg.name ++ ": " ++
         (match arg.value with
          | .variableValue n => "$" ++ n
          | _ => "$" ++ arg.name))) ++ ")") ++
  (match selectionSet with
   | .someSet ss =>
     " " ++ ("\x7b\n" ++ selectionsFormattedString ss (indent + 1) ++
       strRepeat ("  ") indent ++ "\x7d")
   | .noneSet => "")
termination_by structural selectionSet

/-- The per-selection loop of parser.go `SelectionSet.FormattedString`,
with the brace-wrapping of the recursive `FormattedString` call inlined
at the inline-fragment position. -/
def selectionsFormattedString (sels : SelectionList) (indent : Nat) : String :=
  match sels with
  | .nil => ""
  | .cons sel rest =>
    (match sel with
     | .field a n args _ ss _ =>
       strRepeat ("  ") indent ++ fieldFormattedString a n args ss indent ++ "\n"
     | .fragmentSpread n _ _ =>
       strRepeat ("  ") indent ++ "..." ++ n ++ "\n"
     | .inlineFragment tn _ ss _ =>
       strRepeat ("  ") indent ++ "...on " ++
         (match tn with
          | some t => t
          | none => "") ++ " " ++
         ("\x7b\n" ++ selectionsFormattedString ss (indent + 1) ++
           strRepeat ("  ") indent ++ "\x7d") ++ "\n") ++
    selectionsFormattedString rest indent
termination_by structural sels

end

/-- parser.go `SelectionSet.FormattedString`: open brace, the formatted
selections, and a closing brace at `indent - 1`. -/
def selectionSetFormattedString (ss : SelectionList) (indent : Nat) : String :=
  "\x7b\n" ++ selectionsFormattedString ss indent ++
    strRepeat ("  ") (indent - 1) ++ "\x7d"

/-- parser.go `OperationDefinition.generateFormattedGraphQLString`:
lower-cased operation kind, optional name, variable declarations, then the
formatted selection set at indent 1. -/
def generateFormattedGraphQLString (od : OperationDefinition) : String :=
  od.type.strLower ++
  (match od.name with
   | some n => " " ++ n
   | none => "") ++
  (match od.varDefs with
   | [] => ""
   | _ => "(" ++ String.intercalate (", ")
       (od.varDefs.map (fun v => "$" ++ v.name ++ ": " ++ v.type.str)) ++ ")") ++
  " " ++ selectionSetFormattedString od.selectionSet 1

/-! ## Concrete material for the parser claims -/

/-- The fifteen reserved keywords of the tokenizer's keyword table. -/
def keywordList : List String :=
  ["query", "mutation", "subscription", "fragment", "on", "type", "schema",
   "scalar", "enum", "interface", "union", "input", "extend", "directive",
   "implements"]

/-- Whether an `Except` result is a success. -/
def isOkB {α : Type} : Except String α → Bool
  | .ok _ => true
  | .error _ => false

/-- Whether parsing `query { f(<kw>: 1) @<kw> }` succeeds with a single
field named `f` whose only argument and only directive are both named by
the keyword `kw`. -/
def argDirAccepts (kw : String) : Bool :=
  match Parse ("query \x7b f(" ++ kw ++ ": 1) @" ++ kw ++ " \x7d") with
  | .ok [.operationDefinition od] =>
    match od.selectionSet with
    | .cons (.field none fname [arg] [dir] .noneSet _) .nil =>
      decide (fname = "f") && decide (arg.name = kw) && decide (dir.name = kw)
    | _ => false
  | _ => false

/-- Whether parsing `query { <kw> }` (the keyword at field-name position
inside a selection set) is rejected with a parse error. -/
def fieldKeywordRejected (kw : String) : Bool :=
  !(isOkB (Parse ("query \x7b " ++ kw ++ " \x7d")))

/-- Source text of the C3 counterexample operation. -/
def c3Source : String := "query \x7b a(b: 1) \x7d"

/-- The AST the parser produces for `c3Source`: one anonymous query whose
single field `a` carries the literal argument `b: 1`. -/
def c3OpDef : OperationDefinition :=
  { type := .query, name := none, varDefs := [], directives := [],
    selectionSet :=
      .cons (Selection.field none ("a") [{ name := ("b"), value := .intValue ("1") }]
        [] .noneSet []) .nil,
    metadata := [] }

/-- The AST obtained by re-parsing the formatted text of `c3OpDef`: the
literal argument value has become the variable reference `$b`. -/
def c3OpDefReparsed : OperationDefinition :=
  { type := .query, name := none, varDefs := [], directives := [],
    selectionSet :=
      .cons (Selection.field none ("a") [{ name := ("b"), value := .variableValue ("b") }]
        [] .noneSet []) .nil,
    metadata := [] }

/-- Constructor index of a `Value`, used to observe that two ASTs differ. -/
def valueCtorIdx : Value → Nat
  | .stringValue _ => 0
  | .intValue _ => 1
  | .floatValue _ => 2
  | .booleanValue _ => 3
  | .nullValue => 4
  | .variableValue _ => 5
  | .listValue _ => 6
  | .objectValue _ => 7

/-- The constructor index of the first argument value of the first field
of an operation (`99` when that shape is absent). -/
def opFirstArgTag (od : OperationDefinition) : Nat :=
  match od.selectionSet with
  | .cons (Selection.field _ _ (arg :: _) _ _ _) _ => valueCtorIdx arg.value
  | _ => 99

/-! ## Schema graph data model (schema.go) -/

/-! schema.go `TypeRef`: a kind, an optional name, and an optional wrapped
type.  The optional wrapped type is its own inductive in a mutual family
so that recursion over type references is structural. -/
mutual
inductive TypeRef where
  | mk (kind : String) (name : Option String) (ofType : OptTypeRef)

inductive OptTypeRef where
  | noneRef
  | someRef (t : TypeRef)
end

deriving instance Repr for TypeRef

/-- The `Kind` field of a `TypeRef`. -/
def TypeRef.kind : TypeRef → String
  | .mk k _ _ => k

/-- The `Name` field of a `TypeRef`. -/
def TypeRef.name : TypeRef → Option String
  | .mk _ n _ => n

/-- The `OfType` field of a `TypeRef`. -/
def TypeRef.ofType : TypeRef → OptTypeRef
  | .mk _ _ o => o

/-- schema.go `EnumValueDefinition`. -/
structure EnumValueDefinition where
  name : String
  description : Option String := none
deriving Repr

/-- schema.go `InputValueDefinition`. -/
structure InputValueDefinition where
  name : String
  description : Option String := none
  type : TypeRef
  defaultValue : Option String := none
deriving Repr

/-- schema.go `FieldDefinition`. -/
structure FieldDefinition where
  name : String
  description : Option String := none
  type : TypeRef
  args : List InputValueDefinition := []
deriving Repr

/-- schema.go `TypeDefinition`. -/
structure TypeDefinition where
  name : String
  kind : String
  description : Option String := none
  fields : List FieldDefinition := []
  inputFields : List InputValueDefinition := []
  enumValues : List EnumValueDefinition := []
  interfaces : List String := []
  possibleTypes : List String := []
deriving Repr

/-- schema.go `Schema`: the name-indexed type map and the root types.
Go's `map[string]TypeDefinition` is modelled as an association list
updated by insert-or-replace, which preserves map semantics (no duplicate
keys arise from `mapInsert`). -/
structure Schema where
  types : List (String × TypeDefinition)
  query : Option TypeDefinition := none
  mutation : Option TypeDefinition := none
  subscription : Option TypeDefinition := none
deriving Repr

/-- Go map read `m[k]` on the association-list model. -/
def mapLookup {α : Type} : List (String × α) → String → Option α
  | [], _ => none
  | kv :: m, k => if kv.1 = k then some kv.2 else mapLookup m k

/-- Go map write `m[k] = v` on the association-list model:
replace the binding when present, append it otherwise. -/
def mapInsert {α : Type} : List (String × α) → String → α → List (String × α)
  | [], k, v => [(k, v)]
  | kv :: m, k, v => if kv.1 = k then (k, v) :: m else kv :: mapInsert m k v

/-- schema.go `convertASTType`: mirror the AST type shape into a `TypeRef`;
a named type gets the placeholder kind `SCALAR` ("Default, will be
overridden for actual types" in the source); the Go default branch is
unreachable on the closed AST sum. -/
def convertASTType : AstType → TypeRef
  | .namedType name => .mk ("SCALAR") (some name) .noneRef
  | .listType t => .mk ("LIST") none (.someRef (convertASTType t))
  | .nonNullType t => .mk ("NON_NULL") none (.someRef (convertASTType t))

/-- The built-in scalar names of schema.go `addDefaultScalarTypes`. -/
def defaultScalars : List String := ["String", "Int", "Float", "Boolean", "ID"]

/-- The registered definition of a built-in scalar. -/
def builtinScalarDef (s : String) : TypeDefinition :=
  { name := s, kind := ("SCALAR") }

/-- schema.go `addDefaultScalarTypes` acting on the `Types` map. -/
def addDefaultScalarTypes (types : List (String × TypeDefinition)) :
    List (String × TypeDefinition) :=
  defaultScalars.foldl (fun m scalar => mapInsert m scalar (builtinScalarDef scalar)) types

/-- Conversion of one AST field definition (with its arguments) into the
schema-side `FieldDefinition`, as done inline in `buildSchemaFromAST`. -/
def convertAstField (f : AstFieldDefinition) : FieldDefinition :=
  { name := f.name, type := convertASTType f.type,
    args := f.arguments.map (fun a => { name := a.name, type := convertASTType a.type }) }

/-- One iteration of the node loop of schema.go `buildSchemaFromAST`:
every definition kind writes `schema.Types[n.Name] = typeDef`
unconditionally; a `type` definition named `Query`/`Mutation`/
`Subscription` additionally binds the corresponding root; operations and
fragments only print a diagnostic. -/
def processNode (schema : Schema) (node : ASTNode) : Schema :=
  match node with
  | .typeDefinition n =>
    let typeDef : TypeDefinition :=
      { name := n.name, kind := ("OBJECT"), description := none,
        interfaces := n.interfaces, fields := n.fields.map convertAstField }
    let schema := { schema with types := mapInsert schema.types n.name typeDef }
    if n.name = "Query" then { schema with query := some typeDef }
    else if n.name = "Mutation" then { schema with mutation := some typeDef }
    else if n.name = "Subscription" then { schema with subscription := some typeDef }
    else schema
  | .inputTypeDefinition n =>
    let typeDef : TypeDefinition :=
      { name := n.name, kind := ("INPUT_OBJECT"),
        inputFields := n.fields.map (fun f =>
          { name := f.name, type := convertASTType f.type }) }
    { schema with types := mapInsert schema.types n.name typeDef }
  | .enumTypeDefinition n =>
    let typeDef : TypeDefinition :=
      { name := n.name, kind := ("ENUM"),
        enumValues := n.values.map (fun v => { name := v.name }) }
    { schema with types := mapInsert schema.types n.name typeDef }
  | .scalarTypeDefinition n =>
    let typeDef : TypeDefinition := { name := n.name, kind := ("SCALAR") }
    { schema with types := mapInsert schema.types n.name typeDef }
  | .interfaceTypeDefinition n =>
    let typeDef : TypeDefinition :=
      { name := n.name, kind := ("INTERFACE"),
        fields := n.fields.map convertAstField }
    { schema with types := mapInsert schema.types n.name typeDef }
  | .unionTypeDefinition n =>
    let typeDef : TypeDefinition :=
      { name := n.name, kind := ("UNION"), possibleTypes := n.types }
    { schema with types := mapInsert schema.types n.name typeDef }
  | .operationDefinition _ => schema
  | .fragmentDefinition _ => schema

/-- The type-construction part of schema.go `buildSchemaFromAST`: default
scalars are registered first, then the nodes are processed in order. -/
def buildSchemaTypes (nodes : List ASTNode) : Schema :=
  nodes.foldl processNode { types := addDefaultScalarTypes [] }

/-- schema.go `buildSchemaFromAST`: fails when no `Query` root type was
bound. -/
def buildSchemaFromAST (nodes : List ASTNode) : Except String Schema :=
  let schema := buildSchemaTypes nodes
  match schema.query with
  | none => .error ("schema must define a Query type")
  | some _ => .ok schema

/-- The name a schema-definition AST node would register in the `Types`
map (none for operations and fragments). -/
def definedTypeName : ASTNode → Option String
  | .typeDefinition n => some n.name
  | .inputTypeDefinition n => some n.name
  | .enumTypeDefinition n => some n.name
  | .scalarTypeDefinition n => some n.name
  | .interfaceTypeDefinition n => some n.name
  | .unionTypeDefinition n => some n.name
  | .operationDefinition _ => none
  | .fragmentDefinition _ => none

/-- Node list of the C5 counterexample: a user `type Query` (so that
schema construction succeeds) followed by a user `type String`. -/
def c5Nodes : List ASTNode :=
  [ASTNode.typeDefinition
     { name := ("Query"), interfaces := [], fields := [], directives := [],
       metadata := [] },
   ASTNode.typeDefinition
     { name := ("String"), interfaces := [], fields := [], directives := [],
       metadata := [] }]

/-! ## Go pointer/copy semantics of `Schema.GetType` (schema.go) -/

/-- The Go zero value of `TypeDefinition`. -/
def zeroTypeDef : TypeDefinition := { name := "", kind := "" }

/-- Heap read at address `a` of a heap of `TypeDefinition` cells. -/
def heapRead (h : List TypeDefinition) (a : Nat) : Option TypeDefinition := h[a]?

/-- Heap write at address `a`. -/
def heapWrite (h : List TypeDefinition) (a : Nat) (v : TypeDefinition) :
    List TypeDefinition := h.set a v

/-- A schema whose `Types` map stores its values in heap cells, used to
make Go's pointer/copy semantics observable. -/
structure SchemaH where
  typeAddrs : List (String × Nat)

/-- schema.go `Schema.GetType` under the heap model.  The Go body is
`td, ok := s.Types[name]; return &td, ok`: indexing a Go map copies the
stored value into the fresh local `td`, and the method returns the address
of that fresh copy (modelled as a newly allocated cell at the end of the
heap), never a pointer into the map's own storage.  A missing name yields
the zero value with `ok = false`, exactly as in Go. -/
def GetType (h : List TypeDefinition) (s : SchemaH) (name : String) :
    List TypeDefinition × Nat × Bool :=
  match mapLookup s.typeAddrs name with
  | some addr =>
    let td := (heapRead h addr).getD zeroTypeDef
    (h ++ [td], h.length, true)
  | none => (h ++ [zeroTypeDef], h.length, false)

/-! ## The TypeScript generator (src/unnamed/part_004, the compiled copy of
src/schema/typescript.go).  Emission to the `io.Writer` is modelled by
returning the emitted text; an early `return err` is `Except.error`. -/

/-- part_004 `isBuiltInScalar`. -/
def isBuiltInScalar (name : String) : Bool :=
  name = "String" || name = "ID" || name = "Int" || name = "Float" || name = "Boolean"

/-- part_004 `findFieldDefinition`: first field of the type with the given
name (the non-nil receiver case; the generator always passes a present
parent type). -/
def findFieldDefinition (typeDef : TypeDefinition) (name : String) :
    Option FieldDefinition :=
  typeDef.fields.find? (fun f => f.name == name)

/-- part_004 `getBaseTypeName`. -/
def getBaseTypeName : TypeRef → String
  | .mk _ name ofType =>
    match name with
    | some n => n
    | none =>
      match ofType with
      | .someRef t => getBaseTypeName t
      | .noneRef => ""

/-- part_004 `typeRefToSchemaExprInternal`.  The two callback parameters
mirror the Go `customNamed` (nilable, hence `Option`) and `defaultNamed`
function arguments; `allowNullable` is the nullability flag.  A `NON_NULL`
wrapper recurses with the flag cleared; a `LIST` wraps the inner expression
in `z.array(...)` and appends `.nullable()` only when the flag is set; the
named default branch consults `customNamed` first (an empty custom result
falls through to `defaultNamed`) and appends `.nullable()` only when the
flag is set. -/
def typeRefToSchemaExprInternal
    (customNamed : Option (TypeRef → Except String String))
    (defaultNamed : String → Except String String) :
    TypeRef → Bool → Except String String
  | .mk kind name ofType, allowNullable =>
    if kind = ("NON_NULL") then
      match ofType with
      | .noneRef => .error ("NON_NULL type without OfType")
      | .someRef inner =>
        typeRefToSchemaExprInternal customNamed defaultNamed inner false
    else if kind = ("LIST") then
      let innerRes : Except String String :=
        match ofType with
        | .noneRef => .ok ("z.any()")
        | .someRef inner =>
          typeRefToSchemaExprInternal customNamed defaultNamed inner true
      match innerRes with
      | .error e => .error e
      | .ok innerExpr =>
        let result := ("z.array(") ++ innerExpr ++ (")")
        .ok (if allowNullable then result ++ (".nullable()") else result)
    else
      let customRes : Except String String :=
        match customNamed with
        | none => .ok ("")
        | some f => f (.mk kind name ofType)
      match customRes with
      | .error e => .error e
      | .ok customExpr =>
        let exprRes : Except String String :=
          if customExpr = "" then defaultNamed (name.getD (""))
          else .ok customExpr
        match exprRes with
        | .error e => .error e
        | .ok expr => .ok (if allowNullable then expr ++ (".nullable()") else expr)

/-- part_004 `defaultNamedTypeExpr`. -/
def defaultNamedTypeExpr (schema : Schema) (name : String) : Except String String :=
  if name = "String" ∨ name = "ID" then .ok ("z.string()")
  else if name = "Int" then .ok ("z.number().int()")
  else if name = "Float" then .ok ("z.number()")
  else if name = "Boolean" then .ok ("z.boolean()")
  else if name = "" then .ok ("z.any()")
  else
    match mapLookup schema.types name with
    | some _ => .ok (name ++ ("_Schema"))
    | none => .ok ("z.any()")

/-- `strconv.Quote` as applied to enum value names.  Enum value names come
from lexer identifiers (letters, digits, underscore), which contain no
character that `strconv.Quote` escapes, so quoting wraps the name in double
quotes. -/
def goQuote (s : String) : String := ("\"") ++ s ++ ("\"")

/-- part_004 `inlineNamedOutputExpr`. -/
def inlineNamedOutputExpr (schema : Schema) (name : String) : Except String String :=
  if name = "" then .ok ("z.any()")
  else if name = "String" ∨ name = "ID" then .ok ("z.string()")
  else if name = "Int" then .ok ("z.number().int()")
  else if name = "Float" then .ok ("z.number()")
  else if name = "Boolean" then .ok ("z.boolean()")
  else
    match mapLookup schema.types name with
    | some typeDef =>
      if typeDef.kind = ("ENUM") then
        .ok (("z.enum([")
          ++ String.intercalate (", ") (typeDef.enumValues.map (fun v => goQuote v.name))
          ++ ("])"))
      else if typeDef.kind = ("SCALAR") then .ok ("z.any()")
      else .ok ("z.any()")
    | none => .ok ("z.any()")

/-- part_004 `typeRefToSchemaExpr`. -/
def typeRefToSchemaExpr (schema : Schema)
    (customNamed : Option (TypeRef → Except String String)) (typeRef : TypeRef) :
    Except String String :=
  typeRefToSchemaExprInternal customNamed (defaultNamedTypeExpr schema) typeRef true

/-- part_004 `outputTypeRefSchema`. -/
def outputTypeRefSchema (schema : Schema)
    (customNamed : Option (TypeRef → Except String String)) (typeRef : TypeRef) :
    Except String String :=
  typeRefToSchemaExprInternal customNamed (inlineNamedOutputExpr schema) typeRef true

/-- part_004 `generateTypeRefSchema` (emits `typeRefToSchemaExpr` with no
custom callback). -/
def generateTypeRefSchema (schema : Schema) (typeRef : TypeRef) :
    Except String String :=
  typeRefToSchemaExpr schema none typeRef

/-- Elaborate each list entry, stopping at the first error (the Go loops
`return err` on failure). -/
def mapExceptStr {α : Type} (f : α → Except String String) :
    List α → Except String (List String)
  | [] => .ok []
  | x :: xs =>
    match f x with
    | .error e => .error e
    | .ok s =>
      match mapExceptStr f xs with
      | .error e => .error e
      | .ok ss => .ok (s :: ss)

/-- part_004 `generateTypeSchema`: one exported Zod declaration per type
(kind-dependent header) followed by the inferred TypeScript type line. -/
def generateTypeSchema (schema : Schema) (typeDef : TypeDefinition) :
    Except String String :=
  let schemaName := typeDef.name ++ ("_Schema")
  let typeName := typeDef.name
  let headerRes : Except String String :=
    if typeDef.kind = ("ENUM") then
      .ok (("export const ") ++ schemaName ++ (" = z.enum([\n")
        ++ String.intercalate (",\n")
            (typeDef.enumValues.map (fun v => ("  \"") ++ v.name ++ ("\"")))
        ++ ("\n]);\n"))
    else if typeDef.kind = ("INPUT_OBJECT") then
      match mapExceptStr
          (fun f =>
            match generateTypeRefSchema schema f.type with
            | .error e => .error e
            | .ok expr => .ok (("  ") ++ f.name ++ (": ") ++ expr))
          typeDef.inputFields with
      | .error e => .error e
      | .ok entries =>
        .ok (("export const ") ++ schemaName
          ++ (": z.ZodType<any> = z.lazy(() => z.object(\x7b\n")
          ++ String.intercalate (",\n") entries ++ ("\n\x7d));\n"))
    else if typeDef.kind = ("OBJECT") ∨ typeDef.kind = ("INTERFACE") then
      match mapExceptStr
          (fun f =>
            match generateTypeRefSchema schema f.type with
            | .error e => .error e
            | .ok expr => .ok (("  ") ++ f.name ++ (": ") ++ expr))
          typeDef.fields with
      | .error e => .error e
      | .ok entries =>
        .ok (("export const ") ++ schemaName
          ++ (": z.ZodType<any> = z.lazy(() => z.object(\x7b\n")
          ++ String.intercalate (",\n") entries ++ ("\n\x7d));\n"))
    else if typeDef.kind = ("SCALAR") then
      .ok (("export const ") ++ schemaName ++ (" = z.any(); // Custom scalar\n"))
    else if typeDef.kind = ("UNION") then
      .ok (("export const ") ++ schemaName ++ (" = z.union([\n")
        ++ String.intercalate (",\n")
            (typeDef.possibleTypes.map (fun t => ("  ") ++ t ++ ("_Schema")))
        ++ ("\n]);\n"))
    else .ok ("")
  match headerRes with
  | .error e => .error e
  | .ok header =>
    .ok (header ++ ("export type ") ++ typeName ++ (" = z.infer<typeof ")
      ++ schemaName ++ (">;\n"))

/-- One selection of part_004 `generateSelectionSetSchema`'s loop body
(after the separator).  `nested` closes the recursion on nested selection
sets: the Go code builds a `custom` closure that re-enters
`generateSelectionSetSchema` at `depth+1`, passed here by the caller so
that recursion is structural in its fuel.  Fragment spreads and inline
fragments are `TODO` in the source and contribute no text (but the
separator for their index is still emitted by the loop). -/
def genSelectionEntry (nested : SelectionList → TypeDefinition → Except String String)
    (schema : Schema) (parentType : TypeDefinition) (indent : String) :
    Selection → Except String String
  | .field _ name _ _ optSet _ =>
    let entryHead := indent ++ name ++ (": ")
    match findFieldDefinition parentType name with
    | none => .ok (entryHead ++ ("z.any()"))
    | some fieldDef =>
      match optSet with
      | .someSet innerSet =>
        let fieldTypeName := getBaseTypeName fieldDef.type
        if fieldTypeName = "" then .ok (entryHead ++ ("z.any()"))
        else
          match mapLookup schema.types fieldTypeName with
          | none => .ok (entryHead ++ ("z.any()"))
          | some fieldType =>
            let custom : TypeRef → Except String String := fun tr =>
              if tr.name = some fieldTypeName then nested innerSet fieldType
              else .ok ("")
            match outputTypeRefSchema schema (some custom) fieldDef.type with
            | .error e => .error e
            | .ok expr => .ok (entryHead ++ expr)
      | .noneSet =>
        match outputTypeRefSchema schema none fieldDef.type with
        | .error e => .error e
        | .ok expr => .ok (entryHead ++ expr)
  | .fragmentSpread _ _ _ => .ok ("")
  | .inlineFragment _ _ _ _ => .ok ("")

/-- The selection loop of part_004 `generateSelectionSetSchema`: a `",\n"`
separator before every selection except the first (spreads emit their
separator and then `continue`). -/
def genSelectionsLoop (genEntry : Selection → Except String String) :
    SelectionList → Bool → Except String String
  | .nil, _ => .ok ("")
  | .cons s rest, isFirst =>
    match genEntry s with
    | .error e => .error e
    | .ok text =>
      match genSelectionsLoop genEntry rest false with
      | .error e => .error e
      | .ok restText =>
        .ok ((if isFirst then ("") else (",\n")) ++ text ++ restText)

/-- part_004 `generateSelectionSetSchema`, with fuel for the nesting of
selection sets (the Go recursion through the `custom` closure). -/
def generateSelectionSetSchema :
    Nat → Schema → SelectionSet → TypeDefinition → Nat → Except String String
  | 0, _, _, _, _ => .error fuelError
  | fuel + 1, schema, ss, parentType, depth =>
    let indent := strRepeat ("  ") (depth + 1)
    match genSelectionsLoop
        (genSelectionEntry
          (fun innerSet fieldType =>
            generateSelectionSetSchema fuel schema innerSet fieldType (depth + 1))
          schema parentType indent)
        ss true with
    | .error e => .error e
    | .ok body =>
      .ok (("z.object(\x7b\n") ++ body ++ ("\n") ++ strRepeat ("  ") depth ++ ("\x7d)"))

/-- part_004 `generateOperationSchema`.  For an unnamed operation the Go
code computes `strings.Title(strings.ToLower(op.Type.String()))`, which on
the three title-case results of `OperationType.String` is the identity, so
the function name is `op.type.str ++ "Operation"`. -/
def generateOperationSchema (fuel : Nat) (schema : Schema)
    (op : OperationDefinition) : Except String String :=
  let funcNameStr :=
    match op.name with
    | some n => n
    | none => op.type.str ++ ("Operation")
  let schemaName := funcNameStr ++ ("_Schema")
  let typeName := funcNameStr ++ ("_Type")
  let rootType : Option TypeDefinition :=
    match op.type with
    | .query => schema.query
    | .mutation => schema.mutation
    | .subscription => schema.subscription
  match rootType with
  | none => .error (("root type not found for operation type ") ++ op.type.str)
  | some root =>
    match generateSelectionSetSchema fuel schema op.selectionSet root 0 with
    | .error e => .error e
    | .ok ssText =>
      .ok (("// Schema for ") ++ funcNameStr ++ (" operation\n")
        ++ ("export const ") ++ schemaName ++ (" = ") ++ ssText ++ (";\n")
        ++ ("export type ") ++ typeName ++ (" = z.infer<typeof ")
        ++ schemaName ++ (">;\n\n"))

/-! ## The input-type closure (part_004 `collectVariableSchemas` and
`addTypeWithDependencies`).  The Go `used map[string]bool` only ever
receives `true` entries, so it is modelled as the insertion-ordered list of
its keys.  `addTypeWithDependencies` is the only recursion through the
schema graph (a cyclic structure), so it carries fuel; the auxiliary walks
over a type reference and over a field list are structural and take the
fuelled recursive call as a parameter. -/

/-- part_004 `collectTypeRefDependencies`, with the mutual call
`addTypeWithDependencies` abstracted as `addTy`. -/
def collectTypeRefDependenciesF
    (addTy : String → List String → Except String (List String)) :
    TypeRef → List String → Except String (List String)
  | .mk kind name ofType, used =>
    if kind = ("NON_NULL") ∨ kind = ("LIST") then
      match ofType with
      | .noneRef => .ok used
      | .someRef inner => collectTypeRefDependenciesF addTy inner used
    else
      match name with
      | some n => addTy n used
      | none => .ok used

/-- The `InputFields` loop of part_004 `addTypeWithDependencies`'s
`INPUT_OBJECT` case, with the type-reference walk abstracted as
`collectTy`. -/
def collectInputFieldsDepsF
    (collectTy : TypeRef → List String → Except String (List String)) :
    List InputValueDefinition → List String → Except String (List String)
  | [], used => .ok used
  | f :: fs, used =>
    match collectTy f.type used with
    | .error e => .error e
    | .ok used' => collectInputFieldsDepsF collectTy fs used'

/-- part_004 `addTypeWithDependencies`: skip built-in scalars and
already-visited names; an unknown name is marked visited and dropped;
an `INPUT_OBJECT` is marked visited and its input fields' type references
are followed; `ENUM`/`SCALAR` are marked visited; output-only kinds are
ignored. -/
def addTypeWithDependencies :
    Nat → Schema → String → List String → Except String (List String)
  | 0, _, _, _ => .error fuelError
  | fuel + 1, schema, typeName, used =>
    if isBuiltInScalar typeName then .ok used
    else if typeName ∈ used then .ok used
    else
      match mapLookup schema.types typeName with
      | none => .ok (used ++ [typeName])
      | some typeDef =>
        if typeDef.kind = ("INPUT_OBJECT") then
          collectInputFieldsDepsF
            (collectTypeRefDependenciesF (addTypeWithDependencies fuel schema))
            typeDef.inputFields (used ++ [typeName])
        else if typeDef.kind = ("ENUM") ∨ typeDef.kind = ("SCALAR") then
          .ok (used ++ [typeName])
        else .ok used

/-- part_004 `collectVariableType`: walk a parser type down to its named
base and add it with its dependencies. -/
def collectVariableType (fuel : Nat) (schema : Schema) :
    AstType → List String → Except String (List String)
  | .namedType name, used => addTypeWithDependencies fuel schema name used
  | .listType t, used => collectVariableType fuel schema t used
  | .nonNullType t, used => collectVariableType fuel schema t used

/-- The `Variables` loop of part_004 `collectVariableSchemas`. -/
def collectVariablesLoop (fuel : Nat) (schema : Schema) :
    List VariableDefinition → List String → Except String (List String)
  | [], used => .ok used
  | v :: vs, used =>
    match collectVariableType fuel schema v.type used with
    | .error e => .error e
    | .ok used' => collectVariablesLoop fuel schema vs used'

/-- part_004 `collectVariableSchemas`: fold over the operations (only
`OperationDefinition` nodes contribute) and their variables. -/
def collectVariableSchemas (fuel : Nat) (schema : Schema) :
    List ASTNode → List String → Except String (List String)
  | [], used => .ok used
  | .operationDefinition op :: ops, used =>
    match collectVariablesLoop fuel schema op.varDefs used with
    | .error e => .error e
    | .ok used' => collectVariableSchemas fuel schema ops used'
  | _ :: ops, used => collectVariableSchemas fuel schema ops used

/-- part_004 `sortedKeys`: the keys of the map are collected by a Go
`range` loop, whose enumeration order is unspecified (hence callers pass
the enumeration explicitly here), then sorted with `sort.Strings`. -/
def sortedKeys (keys : List String) : List String :=
  keys.mergeSort (fun a b => decide (a ≤ b))

/-- The per-type loop of part_004 `Generate`: each sorted key that is
present in the schema's `Types` map contributes its type schema. -/
def generateTypeSection (schema : Schema) : List String → Except String String
  | [] => .ok ("")
  | t :: ts =>
    match mapLookup schema.types t with
    | none => generateTypeSection schema ts
    | some typeDef =>
      match generateTypeSchema schema typeDef with
      | .error e => .error e
      | .ok text =>
        match generateTypeSection schema ts with
        | .error e => .error e
        | .ok restText => .ok (text ++ restText)

/-- The operation loop of part_004 `Generate` (the type switch keeps only
`OperationDefinition` nodes). -/
def generateOpsSection (fuel : Nat) (schema : Schema) :
    List ASTNode → Except String String
  | [] => .ok ("")
  | .operationDefinition op :: ops =>
    match generateOperationSchema fuel schema op with
    | .error e => .error e
    | .ok text =>
      match generateOpsSection fuel schema ops with
      | .error e => .error e
      | .ok restText => .ok (text ++ restText)
  | _ :: ops => generateOpsSection fuel schema ops

/-- part_004 `TypeScriptGenerator.Generate`: the import header, then (when
any required type was collected) the comment line and the type schemas in
`sortedKeys` order, then the operation schemas.  `usedEnum` is the
enumeration of the `requiredTypes` map produced by the Go `range` loop
inside `sortedKeys`, whose order the runtime does not fix; it is the sole
input the map representation leaves open. -/
def Generate (fuel : Nat) (schema : Schema) (operations : List ASTNode)
    (usedEnum : List String) : Except String String :=
  let headerText := ("import \x7b z \x7d from \"zod\";\n\n")
  let typesRes : Except String String :=
    if usedEnum.length > 0 then
      match generateTypeSection schema (sortedKeys usedEnum) with
      | .error e => .error e
      | .ok body =>
        .ok (("// Type definitions used in operations\n") ++ body ++ ("\n"))
    else .ok ("")
  match typesRes with
  | .error e => .error e
  | .ok typesText =>
    match generateOpsSection fuel schema operations with
    | .error e => .error e
    | .ok opsText => .ok (headerText ++ typesText ++ opsText)

/-! ## Proof-side notions for the input-closure claim -/

/-- The key list of the schema's `Types` map. -/
def schemaKeys (schema : Schema) : List String := schema.types.map Prod.fst

/-- Number of schema keys not yet visited: the decreasing measure of the
closure computation. -/
def unvisitedCount (schema : Schema) (used : List String) : Nat :=
  ((schemaKeys schema).filter (fun k => !(decide (k ∈ used)))).length

/-- A well-behaved visited-set transformer from the closure algorithm:
on a duplicate-free visited list small enough for the fuel, it succeeds and
returns a duplicate-free extension that does not increase the unvisited
count. -/
def goodStep (schema : Schema) (fuel : Nat)
    (f : List String → Except String (List String)) : Prop :=
  ∀ u, u.Nodup → unvisitedCount schema u < fuel →
    ∃ r, f u = .ok r ∧ r.Nodup ∧ u ⊆ r ∧
      unvisitedCount schema r ≤ unvisitedCount schema u

/-- `goodStep` for a name-indexed family (the `addTy` callbacks). -/
def goodAdder (schema : Schema) (fuel : Nat)
    (f : String → List String → Except String (List String)) : Prop :=
  ∀ n, goodStep schema fuel (f n)

/-- The schema of the C2 cyclic-input-graph witness: `input A \x7b b: B! \x7d`
and `input B \x7b a: A! \x7d` (plus a `Query` root). -/
def c2Schema : Schema :=
  { types :=
      [(("A" : String),
        { name := ("A"), kind := ("INPUT_OBJECT"),
          inputFields :=
            [{ name := ("b"),
               type := .mk ("NON_NULL") none
                 (.someRef (.mk ("INPUT_OBJECT") (some ("B")) .noneRef)) }] }),
       (("B" : String),
        { name := ("B"), kind := ("INPUT_OBJECT"),
          inputFields :=
            [{ name := ("a"),
               type := .mk ("NON_NULL") none
                 (.someRef (.mk ("INPUT_OBJECT") (some ("A")) .noneRef)) }] })] }

/-- Operations of the C2 witness: one query with a variable of type `A`. -/
def c2Operations : List ASTNode :=
  [ASTNode.operationDefinition
    { type := .query, name := some ("Q"),
      varDefs := [{ name := ("v"), type := .namedType ("A"),
                    defaultValue := none, metadata := [] }],
      directives := [], selectionSet := .nil, metadata := [] }]

/-! ## Theorems.  Lexer progress and termination -/

theorem skipWhitespace_length (l : List Char) (line col : Nat) :
    (skipWhitespace l line col).1.length ≤ l.length := by
  induction l generalizing line col with
  | nil => simp [skipWhitespace]
  | cons c rest ih =>
    simp only [skipWhitespace]
    split
    · split
      · exact Nat.le_succ_of_le (ih _ _)
      · exact Nat.le_succ_of_le (ih _ _)
    · simp

theorem scanWhile_rest_length (p : Char → Bool) (l : List Char) (col : Nat) :
    (scanWhile p l col).2.1.length ≤ l.length := by
  induction l generalizing col with
  | nil => simp [scanWhile]
  | cons c rest ih =>
    simp only [scanWhile]
    split
    · exact Nat.le_succ_of_le (ih _)
    · simp

theorem scanWhile_rest_length_of_pos (p : Char → Bool) (c : Char) (rest : List Char)
    (col : Nat) (hp : p c = true) :
    (scanWhile p (c :: rest) col).2.1.length ≤ rest.length := by
  simp only [scanWhile, hp, if_true]
  exact scanWhile_rest_length p rest (col + 1)

theorem readStringBody_rest_length (l : List Char) (line col : Nat) :
    (readStringBody l line col).2.1.length ≤ l.length := by
  induction l, line, col using readStringBody.induct
  all_goals rw [readStringBody.eq_def]
  all_goals simp_all
  all_goals omega

theorem readTripleBody_rest_length (l : List Char) (line col : Nat) :
    (readTripleBody l line col).2.1.length ≤ l.length := by
  induction l, line, col using readTripleBody.induct
  all_goals rw [readTripleBody.eq_def]
  all_goals simp_all
  all_goals try omega
  all_goals try split
  all_goals simp_all
  all_goals omega

theorem readString_rest_length (tail : List Char) (line col : Nat) :
    (readString ('"' :: tail) line col).rest.length ≤ tail.length := by
  have h := readStringBody_rest_length tail line (col + 1)
  simp only [readString]
  split
  · split
    next heq =>
      rw [heq] at h
      simp only [List.length_cons] at h
      simpa using Nat.le_of_succ_le h
    next => simpa using h
  · simpa using h

theorem readTripleQuotedString_rest_length (a b c : Char) (tail : List Char)
    (line col : Nat) :
    (readTripleQuotedString (a :: b :: c :: tail) line col).rest.length ≤ tail.length := by
  have h := readTripleBody_rest_length tail line (col + 3)
  simp only [readTripleQuotedString]
  split <;> simpa using h

theorem readIdentifier_rest_length (c : Char) (rest : List Char) (line col : Nat)
    (hc : isAlphaNumeric c = true) :
    (readIdentifier (c :: rest) line col).rest.length ≤ rest.length := by
  simpa [readIdentifier] using scanWhile_rest_length_of_pos isAlphaNumeric c rest col hc

theorem readComment_rest_length (c : Char) (rest : List Char) (line col : Nat)
    (hc : (!(c = '\n')) = true) :
    (readComment (c :: rest) line col).rest.length ≤ rest.length := by
  simpa [readComment] using
    scanWhile_rest_length_of_pos (fun c => !(c = '\n')) c rest col hc

theorem readNumberTail_rest_length (pre : List Char) (l : List Char)
    (line col scol : Nat) :
    (readNumberTail pre l line col scol).rest.length ≤ l.length := by
  have hd1 := scanWhile_rest_length isDigit l scol
  simp only [readNumberTail]
  split
  next c2 rest2 heq =>
    have hlen : rest2.length + 2 ≤ l.length := by
      rw [heq] at hd1; simpa using hd1
    split
    · have h2 := scanWhile_rest_length isDigit (c2 :: rest2)
        ((scanWhile isDigit l scol).2.2 + 1)
      simp only [List.length_cons] at h2 ⊢
      omega
    · simpa using hd1
  next => simpa using hd1

theorem readNumberTail_rest_length_of_digit (pre : List Char) (d : Char)
    (l : List Char) (line col scol : Nat) (hd : isDigit d = true) :
    (readNumberTail pre (d :: l) line col scol).rest.length ≤ l.length := by
  have h1 : (scanWhile isDigit (d :: l) scol).2.1.length ≤ l.length :=
    scanWhile_rest_length_of_pos isDigit d l scol hd
  simp only [readNumberTail]
  split
  next c2 rest2 heq =>
    have hlen : rest2.length + 2 ≤ l.length := by
      rw [heq] at h1; simpa using h1
    split
    · have h2 := scanWhile_rest_length isDigit (c2 :: rest2)
        ((scanWhile isDigit (d :: l) scol).2.2 + 1)
      simp only [List.length_cons] at h2 ⊢
      omega
    · simpa using h1
  next => simpa using h1

theorem readNumber_rest_length (c : Char) (rest : List Char) (line col : Nat)
    (hc : isDigit c = true ∨
      (c = '-' ∧ (match rest with | d :: _ => isDigit d | [] => false) = true)) :
    (readNumber (c :: rest) line col).rest.length ≤ rest.length := by
  rcases hc with hd | ⟨hminus, hrest⟩
  · have hne : c ≠ '-' := by
      intro h; subst h; simp [isDigit] at hd
    have hdef : readNumber (c :: rest) line col = readNumberTail [] (c :: rest) line col col := by
      simp only [readNumber]
      split
      next heq => exact absurd (List.cons.inj heq).1 hne
      next => rfl
    rw [hdef]
    exact readNumberTail_rest_length_of_digit [] c rest line col col hd
  · subst hminus
    rcases rest with _ | ⟨d, rest2⟩
    · simp at hrest
    · have hd : isDigit d = true := by simpa using hrest
      have hdef : readNumber ('-' :: d :: rest2) line col =
          readNumberTail ['-'] (d :: rest2) line col (col + 1) := rfl
      rw [hdef]
      exact Nat.le_succ_of_le (readNumberTail_rest_length_of_digit ['-'] d rest2 line col (col + 1) hd)

theorem scanToken_rest_length (c : Char) (rest : List Char) (line col : Nat) :
    (scanToken c rest line col).rest.length ≤ rest.length := by
  unfold scanToken
  split
  · simp [punctTok]
  · simp [punctTok]
  · simp [punctTok]
  · simp [punctTok]
  · simp [punctTok]
  · simp [punctTok]
  · simp [punctTok]
  · simp [punctTok]
  · simp [punctTok]
  · simp [punctTok]
  · simp [punctTok]
  · simp [punctTok]
  · simp [punctTok]
  · simp [punctTok]
  · split
    next r3 => simp; omega
    next => simp [punctTok]
  · exact readComment_rest_length '#' rest line col (by decide)
  · split
    next tl =>
      have h := readTripleQuotedString_rest_length '"' '"' '"' tl line col
      simp only [List.length_cons]
      omega
    next => exact readString_rest_length rest line col
  · split_ifs with hlet hnum
    · exact readIdentifier_rest_length c rest line col (by simp [isAlphaNumeric, hlet])
    · apply readNumber_rest_length
      by_cases hd : isDigit c = true
      · exact Or.inl hd
      · refine Or.inr ?_
        simpa [hd] using hnum
    · simp
theorem nextToken_progress (input : List Char) (line col : Nat)
    (h : (nextToken input line col).tok.type ≠ .EOF) :
    (nextToken input line col).rest.length < input.length := by
  have hsw := skipWhitespace_length input line col
  simp only [nextToken] at h ⊢
  rcases hsp : skipWhitespace input line col with ⟨l', line', col'⟩
  rw [hsp] at h hsw
  dsimp only at h hsw ⊢
  cases l' with
  | nil => simp at h
  | cons c rest =>
    simp only [List.length_cons] at hsw
    have hs := scanToken_rest_length c rest line' col'
    simpa using Nat.lt_of_lt_of_le (Nat.lt_succ_of_le hs) hsw

theorem tokenizeAux_eof (fuel : Nat) :
    ∀ (l : List Char) (line col : Nat), l.length < fuel →
    ∃ ts tok, tokenizeAux fuel l line col = ts ++ [tok] ∧ tok.type = .EOF ∧
      ∀ t ∈ ts, t.type ≠ .EOF := by
  induction fuel with
  | zero => intro l line col h; exact absurd h (Nat.not_lt_zero _)
  | succ fuel ih =>
    intro l line col h
    simp only [tokenizeAux]
    by_cases he : (nextToken l line col).tok.type = TokenType.EOF
    · rw [if_pos he]
      exact ⟨[], _, rfl, he, by simp⟩
    · rw [if_neg he]
      have hp := nextToken_progress l line col he
      obtain ⟨ts, tok, heq, htok, hall⟩ :=
        ih (nextToken l line col).rest (nextToken l line col).line
           (nextToken l line col).col (by omega)
      refine ⟨(nextToken l line col).tok :: ts, tok, by simp [heq], htok, ?_⟩
      intro t ht
      rcases List.mem_cons.mp ht with h1 | h1
      · rw [h1]; exact he
      · exact hall t h1

theorem readStringBody_found_eq (l : List Char) (line col : Nat) :
    (readStringBody l line col).2.2.2.2 = hasClosingQuote l := by
  induction l, line, col using readStringBody.induct
  all_goals rw [readStringBody.eq_def, hasClosingQuote.eq_def]
  all_goals simp_all

theorem readTripleBody_found_eq (l : List Char) (line col : Nat) :
    (readTripleBody l line col).2.2.2.2 = hasClosingTripleQuote l := by
  induction l, line, col using readTripleBody.induct
  all_goals rw [readTripleBody.eq_def, hasClosingTripleQuote.eq_def]
  all_goals simp_all
  all_goals try split
  all_goals simp_all

/-- Claim C8: for every input whose string (resp. triple-quoted string)
has no closing delimiter before end-of-input, the lexer's `readString`
(resp. `readTripleQuotedString`) returns an `ILLEGAL` token whose literal
spans from the opening delimiter to the end of the input — not a `STRING`
token and not a failure (the scanners are total functions). -/
theorem c8_unterminated_string_illegal :
    (∀ (tail : List Char) (line col : Nat), hasClosingQuote tail = false →
      (readString ('"' :: tail) line col).tok =
        { type := .ILLEGAL, literal := String.mk ('"' :: tail), line := line, col := col }) ∧
    (∀ (tail : List Char) (line col : Nat), hasClosingTripleQuote tail = false →
      (readTripleQuotedString ('"' :: '"' :: '"' :: tail) line col).tok =
        { type := .ILLEGAL, literal := String.mk ('"' :: '"' :: '"' :: tail),
          line := line, col := col }) := by
  constructor
  · intro tail line col hnc
    have hf : (readStringBody tail line (col + 1)).2.2.2.2 = false := by
      rw [readStringBody_found_eq]; exact hnc
    simp [readString, hf]
  · intro tail line col hnc
    have hf : (readTripleBody tail line (col + 3)).2.2.2.2 = false := by
      rw [readTripleBody_found_eq]; exact hnc
    simp [readTripleQuotedString, hf]

/-- Witness for C8 at the concrete unterminated inputs. -/
theorem c8_unterminated_string_illegal_witness :
    (readString ('"' :: ['a']) 1 1).tok =
      { type := .ILLEGAL, literal := String.mk ('"' :: ['a']), line := 1, col := 1 } ∧
    (readTripleQuotedString ('"' :: '"' :: '"' :: ['a']) 1 1).tok =
      { type := .ILLEGAL, literal := String.mk ('"' :: '"' :: '"' :: ['a']),
        line := 1, col := 1 } :=
  ⟨c8_unterminated_string_illegal.1 ['a'] 1 1 (by decide),
   c8_unterminated_string_illegal.2 ['a'] 1 1 (by decide)⟩

/-- Claim C7 (amended): every token stream produced by the lexer ends with
exactly one end-of-input token (no token follows it and no earlier token is
`EOF`), and the concrete example tokenizes as
`QUERY@1:1, LBRACE@1:7, IDENT(hello)@1:9, RBRACE@1:15, EOF@1:16`.  The
original claim's general position statement is amended because a backslash
escape inside a string advances the column by two without checking for a
newline, so tokens after a string containing an escaped newline carry a
line/column computed as if the escaped newline were not a line break (see
the counterexample). -/
theorem c7_eof_and_positions :
    (∀ s : String, ∃ ts tok, tokenize s = ts ++ [tok] ∧ tok.type = .EOF ∧
      ∀ t ∈ ts, t.type ≠ .EOF) ∧
    tokenize ("query \x7b hello \x7d") =
      [{ type := .QUERY, literal := "query", line := 1, col := 1 },
       { type := .LBRACE, literal := "\x7b", line := 1, col := 7 },
       { type := .IDENT, literal := "hello", line := 1, col := 9 },
       { type := .RBRACE, literal := "\x7d", line := 1, col := 15 },
       { type := .EOF, literal := "", line := 1, col := 16 }] := by
  constructor
  · intro s
    exact tokenizeAux_eof (s.toList.length + 1) s.toList 1 1 (Nat.lt_succ_self _)
  · decide

/-- Claim C7 (counterexample): on the five-character input
`\x22 \x5c newline \x22 x` the token for the identifier `x` carries line 1
and column 5, but the 1-indexed source position of its first character
(index 4) is line 2, column 2 — the escaped newline inside the string was
counted as two columns on the same line.  So "every token's line and
column fields are the 1-indexed source position of its first character"
is false on this input. -/
theorem c7_position_counterexample :
    (tokenize c7Input)[1]? =
      some { type := .IDENT, literal := "x", line := 1, col := 5 } ∧
    c7Input.toList[4]? = some 'x' ∧
    lineOfIndex c7Input 4 = 2 ∧ colOfIndex c7Input 4 = 2 ∧
    ¬ (1 : Nat) = 2 := by decide

/-! ## Theorems.  Parser claims -/

theorem nextToken_tokens_nil (p : ParserState) (h : p.tokens = []) :
    p.nextToken.tokens = [] ∧ p.nextToken.peekToken = eofDefaultToken := by
  simp [ParserState.nextToken, h]

theorem advanceN_add (a b : Nat) (p : ParserState) :
    advanceN (a + b) p = advanceN a (advanceN b p) := by
  induction b generalizing p with
  | zero => rfl
  | succ b ih =>
    have h : a + (b + 1) = (a + b) + 1 := rfl
    rw [h]
    show advanceN (a + b) p.nextToken = advanceN a (advanceN b p.nextToken)
    exact ih p.nextToken

theorem advanceN_exhaust : ∀ (ts : List Token) (p : ParserState), p.tokens = ts →
    (advanceN (ts.length + 1) p).tokens = [] ∧
    (advanceN (ts.length + 1) p).peekToken = eofDefaultToken := by
  intro ts
  induction ts with
  | nil =>
    intro p h
    simpa [advanceN] using nextToken_tokens_nil p h
  | cons t ts ih =>
    intro p h
    have h1 : p.nextToken.tokens = ts := by simp [ParserState.nextToken, h]
    have h2 : (t :: ts).length + 1 = (ts.length + 1) + 1 := by simp
    rw [h2]
    show (advanceN (ts.length + 1) p.nextToken).tokens = [] ∧ _
    exact ih p.nextToken h1

theorem advanceN_stable : ∀ (n : Nat) (p : ParserState), p.tokens = [] →
    p.peekToken = eofDefaultToken → 1 ≤ n →
    (advanceN n p).currentToken.type = .EOF ∧
    (advanceN n p).peekToken.type = .EOF := by
  intro n
  induction n with
  | zero => intro p _ _ h; omega
  | succ n ih =>
    intro p h1 h2 _
    have hn : p.nextToken =
        { p with currentToken := p.peekToken, peekToken := eofDefaultToken } := by
      simp [ParserState.nextToken, h1]
    by_cases hz : n = 0
    · subst hz
      show (p.nextToken.currentToken.type = TokenType.EOF ∧
            p.nextToken.peekToken.type = TokenType.EOF)
      rw [hn]
      exact ⟨by rw [h2]; rfl, rfl⟩
    · have hstep := ih p.nextToken (by rw [hn]; exact h1) (by rw [hn]) (by omega)
      exact hstep

/-- Claim C9: once the lexer's token channel is exhausted, every call to
`parser.nextToken` sets `peekToken` to an end-of-input token, advancing is
total (the model is a total function), and after at most `tokens.length+2`
advances `currentToken` is `EOF` and stays `EOF` forever, so the top-level
parse loop's `currentToken != EOF` guard terminates even on truncated
token streams. -/
theorem c9_nextToken_eof_stable :
    (∀ p : ParserState, p.tokens = [] → p.nextToken.peekToken.type = .EOF) ∧
    (∀ (p : ParserState) (n : Nat), p.tokens.length + 2 ≤ n →
      (advanceN n p).currentToken.type = .EOF ∧
      (advanceN n p).peekToken.type = .EOF) := by
  constructor
  · intro p h
    rw [(nextToken_tokens_nil p h).2]
    rfl
  · intro p n hn
    have hsplit : n = (n - (p.tokens.length + 1)) + (p.tokens.length + 1) := by omega
    rw [hsplit, advanceN_add]
    have hq := advanceN_exhaust p.tokens p rfl
    exact advanceN_stable (n - (p.tokens.length + 1))
      (advanceN (p.tokens.length + 1) p) hq.1 hq.2 (by omega)

/-- Witness for C9 at a concrete empty-channel parser state and `n = 2`. -/
theorem c9_nextToken_eof_stable_witness :
    (advanceN 2 (⟨[], zeroToken, zeroToken, []⟩ : ParserState)).currentToken.type = .EOF ∧
    (advanceN 2 (⟨[], zeroToken, zeroToken, []⟩ : ParserState)).peekToken.type = .EOF :=
  c9_nextToken_eof_stable.2 (⟨[], zeroToken, zeroToken, []⟩ : ParserState) 2 (by decide)

/-- Claim C3 (code-bug evidence): the parser produces `c3OpDef` for the
source `query { a(b: 1) }`; its pretty-printed form prints the literal
argument `b: 1` as the variable reference `$b` (the Go source's TODO
fallback in `Field.FormattedString`), so re-parsing yields an AST whose
argument value is `Variable "b"`, not the original `IntValue "1"` — the
print-then-parse round trip does not preserve the AST. -/
theorem c3_roundtrip_literal_args_fail :
    Parse c3Source = .ok [ASTNode.operationDefinition c3OpDef] ∧
    generateFormattedGraphQLString c3OpDef = "query \x7b\n  a(b: $b)\n\x7d" ∧
    Parse (generateFormattedGraphQLString c3OpDef) =
      .ok [ASTNode.operationDefinition c3OpDefReparsed] ∧
    c3OpDefReparsed ≠ c3OpDef := by
  have h2 : generateFormattedGraphQLString c3OpDef = "query \x7b\n  a(b: $b)\n\x7d" := by
    decide
  refine ⟨rfl, h2, ?_, ?_⟩
  · rw [h2]; rfl
  · intro h
    exact absurd (congrArg opFirstArgTag h) (by decide)

/-- Claim C4 (counterexample): the keyword `type` at field-name position
inside a selection set does not parse as a field selection — the parse
fails, because `parseSelection` dispatches only on `IDENT` and `SPREAD`
tokens, so the keyword token never reaches `parseField`. -/
theorem c4_keyword_field_counterexample :
    Parse ("query \x7b type \x7d") =
      .error ("unexpected token in selection: TYPE at line 1, column 9") := rfl

/-- Claim C4 (amended): for every reserved keyword, the name-token
predicate accepts the keyword's token type, and a keyword used as an
argument name or as a directive name parses successfully carrying the
keyword as its literal name; but a field whose name is a keyword is
rejected at the selection position, because `parseSelection` dispatches
only on `IDENT` (and `SPREAD`) even though `parseField` itself accepts
any name token. -/
theorem c4_keywords_arg_directive_names :
    keywordList.all (fun kw => isNameToken (lookupIdent kw)) = true ∧
    keywordList.all argDirAccepts = true ∧
    keywordList.all fieldKeywordRejected = true := by
  refine ⟨by decide, by decide, by decide⟩

/-! ## Theorems.  Schema construction claims -/

theorem mapLookup_mapInsert_ne {α : Type} (m : List (String × α)) (k k' : String)
    (v : α) (h : ¬ k = k') : mapLookup (mapInsert m k v) k' = mapLookup m k' := by
  induction m with
  | nil => simp [mapInsert, mapLookup, h]
  | cons kv m ih =>
    simp only [mapInsert]
    split
    next heq => simp [mapLookup, heq, h]
    next => simp only [mapLookup, ih]

theorem processNode_types_lookup_ne (schema : Schema) (node : ASTNode) (s : String)
    (h : definedTypeName node ≠ some s) :
    mapLookup (processNode schema node).types s = mapLookup schema.types s := by
  cases node <;>
    · simp only [definedTypeName, ne_eq, Option.some.injEq] at h
      first
      | (simp only [processNode]
         split_ifs <;> exact mapLookup_mapInsert_ne _ _ _ _ h)
      | (simp only [processNode]
         exact mapLookup_mapInsert_ne _ _ _ _ h)
      | rfl

theorem foldl_processNode_lookup (nodes : List ASTNode) :
    ∀ (schema : Schema) (s : String) (d : TypeDefinition),
    mapLookup schema.types s = some d →
    (∀ node ∈ nodes, definedTypeName node ≠ some s) →
    mapLookup (nodes.foldl processNode schema).types s = some d := by
  induction nodes with
  | nil => intro schema s d hd _; simpa using hd
  | cons node nodes ih =>
    intro schema s d hd hall
    simp only [List.foldl_cons]
    refine ih (processNode schema node) s d ?_ ?_
    · rw [processNode_types_lookup_ne schema node s (hall node (by simp))]
      exact hd
    · intro n hn; exact hall n (by simp [hn])

theorem initial_builtins_lookup (s : String) (hs : s ∈ defaultScalars) :
    mapLookup (buildSchemaTypes []).types s = some (builtinScalarDef s) := by
  fin_cases hs <;> rfl

/-- Claim C5 (counterexample): with the user definitions
`type Query` and `type String`, schema construction succeeds and the final
entry for the built-in scalar name `String` has kind `OBJECT` — the user
definition overwrote the built-in `SCALAR` definition, so built-ins are
overridable, contrary to the claim. -/
theorem c5_builtin_override_counterexample :
    isOkB (buildSchemaFromAST c5Nodes) = true ∧
    (mapLookup (buildSchemaTypes c5Nodes).types ("String")).map TypeDefinition.kind
      = some ("OBJECT") ∧
    (builtinScalarDef ("String")).kind = "SCALAR" ∧
    ¬ (("OBJECT" : String) = "SCALAR") := by
  refine ⟨rfl, rfl, rfl, by decide⟩

/-- Claim C5 (amended): the five built-in scalars are registered before
any user definition is processed (the fold over user nodes starts from a
map already containing them), and the final entry for a built-in scalar
name is still the built-in `SCALAR` definition provided no user definition
carries that name; a user definition with the same name overwrites the
built-in entry (see the counterexample), since `buildSchemaFromAST`
assigns `schema.Types[n.Name] = typeDef` unconditionally. -/
theorem c5_builtins_preregistered :
    (∀ s ∈ defaultScalars,
      mapLookup (buildSchemaTypes []).types s = some (builtinScalarDef s)) ∧
    (∀ (nodes : List ASTNode) (s : String), s ∈ defaultScalars →
      (∀ node ∈ nodes, definedTypeName node ≠ some s) →
      mapLookup (buildSchemaTypes nodes).types s = some (builtinScalarDef s)) := by
  constructor
  · exact initial_builtins_lookup
  · intro nodes s hs hall
    exact foldl_processNode_lookup nodes _ s (builtinScalarDef s)
      (initial_builtins_lookup s hs) hall

/-- Witness for C5 (amended) at a concrete node list that defines only a
`Query` type: the entry for `String` stays the built-in scalar. -/
theorem c5_builtins_preregistered_witness :
    mapLookup (buildSchemaTypes
      [ASTNode.typeDefinition
        { name := ("Query"), interfaces := [], fields := [], directives := [],
          metadata := [] }]).types ("String") = some (builtinScalarDef ("String")) :=
  c5_builtins_preregistered.2
    [ASTNode.typeDefinition
      { name := ("Query"), interfaces := [], fields := [], directives := [],
        metadata := [] }] ("String") (by decide)
    (by intro node hn; simp at hn; subst hn; simp [definedTypeName])

/-! ## Theorems.  The `GetType` frame claim -/

/-- Claim C10: `Schema.GetType` returns a pointer to a fresh copy of the
stored type definition together with the membership flag; the returned
address is distinct from the map's own cell, reading it yields the stored
definition, and writing any value through the returned pointer leaves the
map's cell — and every other pre-existing heap cell — unchanged, so the
schema graph stays read-only through this accessor. -/
theorem c10_getType_returns_fresh_copy (h : List TypeDefinition) (s : SchemaH)
    (name : String) (addr : Nat)
    (hfound : mapLookup s.typeAddrs name = some addr) (haddr : addr < h.length) :
    (GetType h s name).2.2 = true ∧
    (GetType h s name).2.1 ≠ addr ∧
    heapRead (GetType h s name).1 (GetType h s name).2.1 = heapRead h addr ∧
    (∀ v : TypeDefinition,
      heapRead (heapWrite (GetType h s name).1 (GetType h s name).2.1 v) addr =
        heapRead h addr) ∧
    (∀ b : Nat, b < h.length → ∀ v : TypeDefinition,
      heapRead (heapWrite (GetType h s name).1 (GetType h s name).2.1 v) b =
        heapRead h b) := by
  have hcell : ∃ td, h[addr]? = some td := by
    exact ⟨h[addr], List.getElem?_eq_getElem haddr⟩
  obtain ⟨td0, htd0⟩ := hcell
  simp only [GetType, hfound]
  refine ⟨trivial, by omega, ?_, ?_, ?_⟩
  · simp [heapRead, htd0, List.getElem?_append_right, List.getElem?_eq_getElem]
  · intro v
    simp only [heapRead, heapWrite]
    rw [List.getElem?_set_ne (by omega)]
    rw [List.getElem?_append_left (by omega)]
  · intro b hb v
    simp only [heapRead, heapWrite]
    rw [List.getElem?_set_ne (by omega)]
    rw [List.getElem?_append_left (by omega)]

/-- Witness for C10 at a one-cell heap and a one-entry schema map. -/
theorem c10_getType_returns_fresh_copy_witness :
    (GetType [zeroTypeDef] (⟨[(("A" : String), 0)]⟩ : SchemaH) ("A")).2.2 = true ∧
    (GetType [zeroTypeDef] (⟨[(("A" : String), 0)]⟩ : SchemaH) ("A")).2.1 ≠ 0 ∧
    heapRead (GetType [zeroTypeDef] (⟨[(("A" : String), 0)]⟩ : SchemaH) ("A")).1
        (GetType [zeroTypeDef] (⟨[(("A" : String), 0)]⟩ : SchemaH) ("A")).2.1 =
      heapRead [zeroTypeDef] 0 ∧
    (∀ v : TypeDefinition,
      heapRead (heapWrite (GetType [zeroTypeDef] (⟨[(("A" : String), 0)]⟩ : SchemaH) ("A")).1
          (GetType [zeroTypeDef] (⟨[(("A" : String), 0)]⟩ : SchemaH) ("A")).2.1 v) 0 =
        heapRead [zeroTypeDef] 0) ∧
    (∀ b : Nat, b < ([zeroTypeDef] : List TypeDefinition).length →
      ∀ v : TypeDefinition,
      heapRead (heapWrite (GetType [zeroTypeDef] (⟨[(("A" : String), 0)]⟩ : SchemaH) ("A")).1
          (GetType [zeroTypeDef] (⟨[(("A" : String), 0)]⟩ : SchemaH) ("A")).2.1 v) b =
        heapRead [zeroTypeDef] b) :=
  c10_getType_returns_fresh_copy [zeroTypeDef] (⟨[(("A" : String), 0)]⟩ : SchemaH)
    ("A") 0 (by rfl) (by decide)

/-! ## Theorems.  Nullability of generated type-reference expressions -/

theorem trNonNullStep (cn : Option (TypeRef → Except String String))
    (dn : String → Except String String) (inner : TypeRef) (b : Bool) :
    typeRefToSchemaExprInternal cn dn (.mk ("NON_NULL") none (.someRef inner)) b
      = typeRefToSchemaExprInternal cn dn inner false := by
  simp [typeRefToSchemaExprInternal]

theorem trListStepNoNullable (cn : Option (TypeRef → Except String String))
    (dn : String → Except String String) (inner : TypeRef) :
    typeRefToSchemaExprInternal cn dn (.mk ("LIST") none (.someRef inner)) false
      = match typeRefToSchemaExprInternal cn dn inner true with
        | .error e => .error e
        | .ok innerExpr => .ok (("z.array(") ++ innerExpr ++ (")")) := by
  cases h : typeRefToSchemaExprInternal cn dn inner true <;>
    simp [typeRefToSchemaExprInternal, h]

/-- Claim C1: at a named type reference in non-nullable position the
generator emits exactly the named-case expression with no `.nullable()`
appended (first part, for the default callback path), and for every type
reference of shape `NonNull(List(NonNull(Named T)))` the emitted expression
is exactly `z.array(<element validator>)` where the element validator is
the named-case result at non-nullable position — no `.nullable()` at the
outer (array) position and none at the inner (element) position. -/
theorem c1_nonnull_list_nonnull_named :
    (∀ (dn : String → Except String String) (kind tname : String),
      kind ≠ ("NON_NULL") → kind ≠ ("LIST") →
      typeRefToSchemaExprInternal none dn (.mk kind (some tname) .noneRef) false
        = dn tname) ∧
    (∀ (cn : Option (TypeRef → Except String String))
       (dn : String → Except String String) (kind tname e : String),
      typeRefToSchemaExprInternal cn dn (.mk kind (some tname) .noneRef) false
        = .ok e →
      typeRefToSchemaExprInternal cn dn
        (.mk ("NON_NULL") none (.someRef (.mk ("LIST") none (.someRef
          (.mk ("NON_NULL") none (.someRef (.mk kind (some tname) .noneRef)))))))
        true = .ok (("z.array(") ++ e ++ (")"))) := by
  constructor
  · intro dn kind tname h1 h2
    cases h : dn tname <;> simp [typeRefToSchemaExprInternal, h1, h2, h]
  · intro cn dn kind tname e hinner
    rw [trNonNullStep, trListStepNoNullable, trNonNullStep, hinner]

/-- Witness for C1 at the default named expression for a custom scalar
`T`: the element validator is `T_Schema` and the wrapped type emits
`z.array(T_Schema)` with no nullable modifier. -/
theorem c1_nonnull_list_nonnull_named_witness :
    typeRefToSchemaExprInternal none (fun n => .ok (n ++ ("_Schema")))
      (.mk ("SCALAR") (some ("T")) .noneRef) false
      = .ok (("T" : String) ++ ("_Schema")) ∧
    typeRefToSchemaExprInternal none (fun n => .ok (n ++ ("_Schema")))
      (.mk ("NON_NULL") none (.someRef (.mk ("LIST") none (.someRef
        (.mk ("NON_NULL") none (.someRef (.mk ("SCALAR") (some ("T")) .noneRef)))))))
      true = .ok (("z.array(") ++ (("T" : String) ++ ("_Schema")) ++ (")")) :=
  ⟨c1_nonnull_list_nonnull_named.1 (fun n => .ok (n ++ ("_Schema")))
      ("SCALAR") ("T") (by decide) (by decide),
   c1_nonnull_list_nonnull_named.2 none (fun n => .ok (n ++ ("_Schema")))
      ("SCALAR") ("T") (("T" : String) ++ ("_Schema")) (by rfl)⟩

/-! ## Theorems.  The input-type closure terminates and visits once -/

theorem length_filter_le_of_imp {α : Type} (p q : α → Bool)
    (h : ∀ a, p a = true → q a = true) :
    ∀ l : List α, (l.filter p).length ≤ (l.filter q).length := by
  intro l
  induction l with
  | nil => simp
  | cons a l ih =>
    cases hp : p a
    · cases hq : q a
      · simpa [List.filter_cons, hp, hq] using ih
      · simp only [List.filter_cons, hp, hq]
        simp only [eq_self_iff_true, if_true, if_neg Bool.false_ne_true,
          List.length_cons]
        omega
    · have hq := h a hp
      simp only [List.filter_cons, hp, hq, eq_self_iff_true, if_true,
        List.length_cons]
      omega

theorem unvisitedCount_mono (schema : Schema) {u v : List String} (huv : u ⊆ v) :
    unvisitedCount schema v ≤ unvisitedCount schema u := by
  apply length_filter_le_of_imp
  intro a ha
  have hav : a ∉ v := by simpa using ha
  have : a ∉ u := fun hmem => hav (huv hmem)
  simpa using this

theorem filter_visit_lt (u : List String) (n : String) (hn : n ∉ u) :
    ∀ keys : List String, n ∈ keys →
      (keys.filter (fun k => !(decide (k ∈ u ++ [n])))).length
        < (keys.filter (fun k => !(decide (k ∈ u)))).length := by
  intro keys
  induction keys with
  | nil => simp
  | cons a keys ih =>
    intro hmem
    by_cases han : a = n
    · subst han
      have h1 : (decide (a ∈ u ++ [a])) = true := by simp
      have h2 : (decide (a ∈ u)) = false := by simpa using hn
      have himp : ∀ k : String,
          (!(decide (k ∈ u ++ [a]))) = true → (!(decide (k ∈ u))) = true := by
        intro k hk'
        have hk2 : k ∉ u ++ [a] := by simpa using hk'
        have : k ∉ u := fun hmem2 => hk2 (List.mem_append_left _ hmem2)
        simpa using this
      have hle := length_filter_le_of_imp _ _ himp keys
      simp only [List.filter_cons, h1, h2, Bool.not_true, Bool.not_false,
        if_neg Bool.false_ne_true, eq_self_iff_true, if_true, List.length_cons]
      omega
    · have hmem' : n ∈ keys := by
        rcases List.mem_cons.mp hmem with h | h
        · exact absurd h.symm han
        · exact h
      have hrec := ih hmem'
      by_cases hau : a ∈ u
      · have h1 : (decide (a ∈ u ++ [n])) = true := by simp [hau]
        have h2 : (decide (a ∈ u)) = true := by simp [hau]
        simpa [List.filter_cons, h1, h2] using hrec
      · have h1 : (decide (a ∈ u ++ [n])) = false := by simp [hau, han]
        have h2 : (decide (a ∈ u)) = false := by simpa using hau
        simp only [List.filter_cons, h1, h2, Bool.not_false, eq_self_iff_true,
          if_true, List.length_cons]
        omega

theorem unvisitedCount_strict (schema : Schema) {n : String} {u : List String}
    (hk : n ∈ schemaKeys schema) (hn : n ∉ u) :
    unvisitedCount schema (u ++ [n]) < unvisitedCount schema u :=
  filter_visit_lt u n hn (schemaKeys schema) hk

theorem mapLookup_some_mem_keys {α : Type} {m : List (String × α)} {k : String}
    {v : α} (h : mapLookup m k = some v) : k ∈ m.map Prod.fst := by
  induction m with
  | nil => simp [mapLookup] at h
  | cons kv m ih =>
    simp only [mapLookup] at h
    split at h
    next heq => simp [heq]
    next => simp [ih h]

theorem nodup_append_singleton {u : List String} {n : String}
    (h : u.Nodup) (hn : n ∉ u) : (u ++ [n]).Nodup := by
  simp [List.nodup_append, h, hn]

theorem collectTypeRefDependenciesF_good (schema : Schema) (fuel : Nat)
    (addTy : String → List String → Except String (List String))
    (hAdd : goodAdder schema fuel addTy) (tr : TypeRef) :
    goodStep schema fuel (collectTypeRefDependenciesF addTy tr) := by
  refine @TypeRef.rec
    (fun tr => goodStep schema fuel (collectTypeRefDependenciesF addTy tr))
    (fun o => ∀ kind name, goodStep schema fuel
      (collectTypeRefDependenciesF addTy (.mk kind name o)))
    ?_ ?_ ?_ tr
  · intro kind name ofType ih
    exact ih kind name
  · intro kind name u hnd hlt
    simp only [collectTypeRefDependenciesF]
    split
    · exact ⟨u, rfl, hnd, List.Subset.refl u, le_refl _⟩
    · cases name with
      | some n => exact hAdd n u hnd hlt
      | none => exact ⟨u, rfl, hnd, List.Subset.refl u, le_refl _⟩
  · intro t iht kind name u hnd hlt
    simp only [collectTypeRefDependenciesF]
    split
    · exact iht u hnd hlt
    · cases name with
      | some n => exact hAdd n u hnd hlt
      | none => exact ⟨u, rfl, hnd, List.Subset.refl u, le_refl _⟩

theorem collectInputFieldsDepsF_good (schema : Schema) (fuel : Nat)
    (collectTy : TypeRef → List String → Except String (List String))
    (hTy : ∀ tr, goodStep schema fuel (collectTy tr))
    (fs : List InputValueDefinition) :
    goodStep schema fuel (collectInputFieldsDepsF collectTy fs) := by
  induction fs with
  | nil => exact fun u hnd _ => ⟨u, rfl, hnd, List.Subset.refl u, le_refl _⟩
  | cons f fs ih =>
    intro u hnd hlt
    obtain ⟨r₁, hr₁, hnd₁, hsub₁, hcnt₁⟩ := hTy f.type u hnd hlt
    obtain ⟨r, hr, hndr, hsubr, hcntr⟩ := ih r₁ hnd₁ (lt_of_le_of_lt hcnt₁ hlt)
    refine ⟨r, ?_, hndr, hsub₁.trans hsubr, le_trans hcntr hcnt₁⟩
    simp only [collectInputFieldsDepsF, hr₁, hr]

theorem addTypeWithDependencies_good (schema : Schema) :
    ∀ fuel, goodAdder schema fuel (addTypeWithDependencies fuel schema) := by
  intro fuel
  induction fuel with
  | zero => exact fun n u _ hlt => absurd hlt (Nat.not_lt_zero _)
  | succ fuel ih =>
    intro n u hnd hlt
    by_cases hb : isBuiltInScalar n = true
    · refine ⟨u, ?_, hnd, List.Subset.refl u, le_refl _⟩
      simp [addTypeWithDependencies, hb]
    · by_cases hmem : n ∈ u
      · refine ⟨u, ?_, hnd, List.Subset.refl u, le_refl _⟩
        simp [addTypeWithDependencies, hb, hmem]
      · cases hlook : mapLookup schema.types n with
        | none =>
          refine ⟨u ++ [n], ?_, nodup_append_singleton hnd hmem,
            List.subset_append_left u [n],
            unvisitedCount_mono schema (List.subset_append_left u [n])⟩
          simp [addTypeWithDependencies, hb, hmem, hlook]
        | some typeDef =>
          by_cases hio : typeDef.kind = ("INPUT_OBJECT")
          · have hkey : n ∈ schemaKeys schema := mapLookup_some_mem_keys hlook
            have hstrict := unvisitedCount_strict schema hkey hmem
            have hnd' := nodup_append_singleton hnd hmem
            have hlt' : unvisitedCount schema (u ++ [n]) < fuel := by omega
            obtain ⟨r, hr, hndr, hsubr, hcntr⟩ :=
              collectInputFieldsDepsF_good schema fuel _
                (collectTypeRefDependenciesF_good schema fuel _ ih)
                typeDef.inputFields (u ++ [n]) hnd' hlt'
            refine ⟨r, ?_, hndr, (List.subset_append_left u [n]).trans hsubr, ?_⟩
            · simp only [addTypeWithDependencies, hb, hmem, hlook, hio]
              simpa using hr
            · omega
          · by_cases hes : typeDef.kind = ("ENUM") ∨ typeDef.kind = ("SCALAR")
            · refine ⟨u ++ [n], ?_, nodup_append_singleton hnd hmem,
                List.subset_append_left u [n],
                unvisitedCount_mono schema (List.subset_append_left u [n])⟩
              simp [addTypeWithDependencies, hb, hmem, hlook, hio, hes]
            · refine ⟨u, ?_, hnd, List.Subset.refl u, le_refl _⟩
              simp [addTypeWithDependencies, hb, hmem, hlook, hio, hes]

theorem collectVariableType_good (schema : Schema) (fuel : Nat) (t : AstType) :
    goodStep schema fuel (collectVariableType fuel schema t) := by
  induction t with
  | namedType name => exact addTypeWithDependencies_good schema fuel name
  | listType t ih => exact ih
  | nonNullType t ih => exact ih

theorem collectVariablesLoop_good (schema : Schema) (fuel : Nat)
    (vs : List VariableDefinition) :
    goodStep schema fuel (collectVariablesLoop fuel schema vs) := by
  induction vs with
  | nil => exact fun u hnd _ => ⟨u, rfl, hnd, List.Subset.refl u, le_refl _⟩
  | cons v vs ih =>
    intro u hnd hlt
    obtain ⟨r₁, hr₁, hnd₁, hsub₁, hcnt₁⟩ :=
      collectVariableType_good schema fuel v.type u hnd hlt
    obtain ⟨r, hr, hndr, hsubr, hcntr⟩ := ih r₁ hnd₁ (lt_of_le_of_lt hcnt₁ hlt)
    refine ⟨r, ?_, hndr, hsub₁.trans hsubr, le_trans hcntr hcnt₁⟩
    simp only [collectVariablesLoop, hr₁, hr]

theorem collectVariableSchemas_good (schema : Schema) (fuel : Nat)
    (ops : List ASTNode) :
    goodStep schema fuel (collectVariableSchemas fuel schema ops) := by
  induction ops with
  | nil => exact fun u hnd _ => ⟨u, rfl, hnd, List.Subset.refl u, le_refl _⟩
  | cons node ops ih =>
    cases node with
    | operationDefinition op =>
      intro u hnd hlt
      obtain ⟨r₁, hr₁, hnd₁, hsub₁, hcnt₁⟩ :=
        collectVariablesLoop_good schema fuel op.varDefs u hnd hlt
      obtain ⟨r, hr, hndr, hsubr, hcntr⟩ := ih r₁ hnd₁ (lt_of_le_of_lt hcnt₁ hlt)
      refine ⟨r, ?_, hndr, hsub₁.trans hsubr, le_trans hcntr hcnt₁⟩
      simp only [collectVariableSchemas, hr₁, hr]
    | fragmentDefinition fd => exact ih
    | typeDefinition d => exact ih
    | inputTypeDefinition d => exact ih
    | enumTypeDefinition d => exact ih
    | scalarTypeDefinition d => exact ih
    | interfaceTypeDefinition d => exact ih
    | unionTypeDefinition d => exact ih

/-- Claim C2: for every schema (cyclic input-object graphs included) and
every operation list, the input-type closure computation succeeds — with
fuel exceeding the number of entries of the `Types` map, the `visited`
membership check bounds the recursion — and the resulting visited list is
duplicate-free: every type in the resulting set occurs exactly once, so
one schema declaration is emitted per collected type. -/
theorem c2_input_closure_terminates (schema : Schema) (operations : List ASTNode)
    (fuel : Nat) (hfuel : schema.types.length < fuel) :
    ∃ r, collectVariableSchemas fuel schema operations [] = .ok r ∧ r.Nodup ∧
      ∀ t ∈ r, r.count t = 1 := by
  have h0 : unvisitedCount schema [] < fuel := by
    have h1 : unvisitedCount schema [] ≤ (schemaKeys schema).length :=
      List.length_filter_le _ _
    have h2 : (schemaKeys schema).length = schema.types.length := by
      simp [schemaKeys]
    omega
  obtain ⟨r, hr, hnd, _, _⟩ :=
    collectVariableSchemas_good schema fuel operations [] List.nodup_nil h0
  exact ⟨r, hr, hnd, fun t ht => List.count_eq_one_of_mem hnd ht⟩

/-- Witness for C2 at the cyclic graph `input A \x7b b: B! \x7d`,
`input B \x7b a: A! \x7d` with one operation whose variable has type `A`:
two map entries, so fuel 3 suffices. -/
theorem c2_input_closure_terminates_witness :
    c2Schema.types.length < 3 ∧
    ∃ r, collectVariableSchemas 3 c2Schema c2Operations [] = .ok r ∧ r.Nodup ∧
      ∀ t ∈ r, r.count t = 1 :=
  ⟨by decide, c2_input_closure_terminates c2Schema c2Operations 3 (by decide)⟩

/-! ## Theorems.  Deterministic generation order and naming -/

theorem sortedKeys_perm_eq {l₁ l₂ : List String} (h : l₁.Perm l₂) :
    sortedKeys l₁ = sortedKeys l₂ := by
  have hs : ∀ l : List String,
      List.Sorted (· ≤ ·) (l.mergeSort (fun a b => decide (a ≤ b))) := by
    intro l
    have ht : ∀ a b c : String, (decide (a ≤ b)) = true → (decide (b ≤ c)) = true →
        (decide (a ≤ c)) = true := by
      intro a b c hab hbc
      simp only [decide_eq_true_eq] at *
      exact le_trans hab hbc
    have hto : ∀ a b : String, (decide (a ≤ b) || decide (b ≤ a)) = true := by
      intro a b
      rcases le_total a b with h' | h' <;> simp [h']
    have := @List.sorted_mergeSort String (fun a b => decide (a ≤ b)) ht hto l
    exact this.imp (fun h' => by simpa using h')
  simp only [sortedKeys]
  exact List.eq_of_perm_of_sorted
    ((List.mergeSort_perm l₁ _).trans (h.trans (List.mergeSort_perm l₂ _).symm))
    (hs l₁) (hs l₂)

/-- Claim C6: the generated output text is a deterministic function of the
schema and the operations.  The only run-to-run variation Go admits is the
`range` enumeration order of the `requiredTypes` map inside `sortedKeys`;
for any two enumerations of the same key set (permutations of each other)
the generated text — in particular the order and the names of the emitted
type-validator declarations — is identical, because the keys are sorted
before emission. -/
theorem c6_generation_deterministic (fuel : Nat) (schema : Schema)
    (operations : List ASTNode) (e₁ e₂ : List String) (hperm : e₁.Perm e₂) :
    Generate fuel schema operations e₁ = Generate fuel schema operations e₂ := by
  have hs := sortedKeys_perm_eq hperm
  have hl := hperm.length_eq
  simp only [Generate, hs, hl]

/-- Witness for C6: two opposite enumerations of the key set
`\x7bA, B\x7d` generate the same text over the empty schema. -/
theorem c6_generation_deterministic_witness :
    ((["B", "A"] : List String).Perm ["A", "B"]) ∧
    Generate 1 ({ types := [] } : Schema) [] ["B", "A"]
      = Generate 1 ({ types := [] } : Schema) [] ["A", "B"] :=
  ⟨List.Perm.swap ("A") ("B") [],
   c6_generation_deterministic 1 ({ types := [] } : Schema) [] ["B", "A"] ["A", "B"]
     (List.Perm.swap ("A") ("B") [])⟩

end Gqlc
